import Mathlib

/-!
Shallow embedding of the Graph State & History Engine of the rulable visual
workflow editor (store, caches, delta history, serialization), together with
proofs about its specified behaviour.

Conventions of the embedding:
* JavaScript objects used as string-keyed dictionaries (`Record<string, T>`)
  are modelled by `RecMap`, an insertion-ordered association list with the
  JS semantics: assignment to an existing key updates the value in place,
  assignment to a fresh key appends, `delete` removes the entry, and
  `Object.values` lists the values in insertion order.
* JavaScript numbers are modelled by `Int`; no verified property depends on
  floating-point behaviour.
* Functions that can throw are modelled with `Except String`.
-/

namespace Rulable

/-- JS-object-style dictionary with string keys: insertion order preserved,
assignment updates in place, delete removes the entry. -/
abbrev RecMap (α : Type) : Type := List (String × α)

/-- `m[k]`, reading a property: the first (and for well-formed maps, only)
binding of `k`. -/
def recLookup {α : Type} (m : RecMap α) (k : String) : Option α :=
  match m with
  | [] => none
  | kv :: rest => if kv.1 = k then some kv.2 else recLookup rest k

/-- `m[k] = v`: update in place when the key exists, else append. -/
def recSet {α : Type} (m : RecMap α) (k : String) (v : α) : RecMap α :=
  match m with
  | [] => [(k, v)]
  | kv :: rest => if kv.1 = k then (k, v) :: rest else kv :: recSet rest k v

/-- `delete m[k]`. -/
def recDel {α : Type} (m : RecMap α) (k : String) : RecMap α :=
  match m with
  | [] => []
  | kv :: rest => if kv.1 = k then recDel rest k else kv :: recDel rest k

/-- `Object.values(m)`. -/
def recValues {α : Type} (m : RecMap α) : List α := m.map (fun kv => kv.2)

/-- `Object.keys(m)`. -/
def recKeys {α : Type} (m : RecMap α) : List String := m.map (fun kv => kv.1)

@[simp] theorem recLookup_nil {α : Type} (k : String) : recLookup ([] : RecMap α) k = none := rfl

theorem recLookup_cons {α : Type} (kv : String × α) (m : RecMap α) (k : String) :
    recLookup (kv :: m) k = if kv.1 = k then some kv.2 else recLookup m k := rfl

@[simp] theorem recLookup_recSet_self {α : Type} (m : RecMap α) (k : String) (v : α) :
    recLookup (recSet m k v) k = some v := by
  induction m with
  | nil => simp [recSet, recLookup]
  | cons kv rest ih =>
      by_cases h : kv.1 = k <;> simp [recSet, h, recLookup, ih]

theorem recLookup_recSet_ne {α : Type} (m : RecMap α) (k k' : String) (v : α)
    (h : k' ≠ k) : recLookup (recSet m k v) k' = recLookup m k' := by
  induction m with
  | nil => simp [recSet, recLookup, Ne.symm h]
  | cons kv rest ih =>
      by_cases hk : kv.1 = k
      · subst hk
        simp [recSet, recLookup, Ne.symm h]
      · simp [recSet, hk, recLookup, ih]

@[simp] theorem recLookup_recDel_self {α : Type} (m : RecMap α) (k : String) :
    recLookup (recDel m k) k = none := by
  induction m with
  | nil => rfl
  | cons kv rest ih =>
      by_cases h : kv.1 = k <;> simp [recDel, h, recLookup, ih]

theorem recLookup_recDel_ne {α : Type} (m : RecMap α) (k k' : String)
    (h : k' ≠ k) : recLookup (recDel m k) k' = recLookup m k' := by
  induction m with
  | nil => rfl
  | cons kv rest ih =>
      by_cases hk : kv.1 = k
      · subst hk
        simp [recDel, recLookup, ih, Ne.symm h]
      · simp [recDel, hk, recLookup, ih]

theorem recLookup_eq_none_of_not_mem {α : Type} (m : RecMap α) (k : String)
    (h : k ∉ recKeys m) : recLookup m k = none := by
  induction m with
  | nil => rfl
  | cons kv rest ih =>
      have h1 : kv.1 ≠ k := by
        intro he
        exact h (by simp [recKeys]; left; exact he.symm)
      have h2 : k ∉ recKeys rest := by
        intro he
        exact h (by simp [recKeys] at he ⊢; right; exact he)
      simp [recLookup, h1, ih h2]

theorem recSet_of_not_mem {α : Type} (m : RecMap α) (k : String) (v : α)
    (h : k ∉ recKeys m) : recSet m k v = m ++ [(k, v)] := by
  induction m with
  | nil => rfl
  | cons kv rest ih =>
      have h1 : kv.1 ≠ k := by
        intro he
        exact h (by simp [recKeys]; left; exact he.symm)
      have h2 : k ∉ recKeys rest := by
        intro he
        exact h (by simp [recKeys] at he ⊢; right; exact he)
      simp [recSet, h1, ih h2]

theorem recKeys_recSet_subset {α : Type} (m : RecMap α) (k k' : String) (v : α)
    (h : k' ∈ recKeys (recSet m k v)) : k' ∈ recKeys m ∨ k' = k := by
  induction m with
  | nil => simp [recSet, recKeys] at h; right; exact h
  | cons kv rest ih =>
      by_cases hk : kv.1 = k
      · simp [recSet, hk, recKeys] at h
        rcases h with h | h
        · right; exact h
        · left; simp [recKeys]; right; exact h
      · simp [recSet, hk, recKeys] at h ⊢
        rcases h with h | h
        · left; left; exact h
        · rcases ih (by simp [recKeys]; exact h) with h2 | h2
          · left; right; simp [recKeys] at h2; exact h2
          · right; exact h2

/-! ## Entity model (src/src/core/types/graph.types.ts, src/src/domain/models) -/

structure Position where
  x : Int
  y : Int
deriving DecidableEq, Repr

structure Dimensions where
  width : Int
  height : Int
deriving DecidableEq, Repr

structure Transform where
  k : Int
  x : Int
  y : Int
deriving DecidableEq, Repr

inductive FlowType where
  | flowIn
  | flowOut
  | flowBi
  | flowAny
deriving DecidableEq, Repr

inductive Direction where
  | dLeft
  | dRight
  | dTop
  | dBottom
  | dOmni
deriving DecidableEq, Repr

inductive PathType where
  | bezier
  | smoothStep
  | straight
deriving DecidableEq, Repr

/-- Free-form style maps (`NodeStyle`, `LinkStyle`); values are opaque. -/
abbrev StyleMap : Type := List (String × Int)

/-- Free-form `data` maps; values are opaque. -/
abbrev DataMap : Type := List (String × String)

structure LinkLabel where
  text : String
  offset : Int
  color : Option String
  bgColor : Option String
  fontSize : Option Int
deriving DecidableEq, Repr

/-- Handler entity (src/src/domain/models/Handler.ts): a typed connection
point owned by a node. -/
structure Handler where
  id : String
  type : String
  flow : FlowType
  role : String
  offset : Position
  direction : Direction
  dims : Dimensions
  label : String
deriving DecidableEq, Repr

/-- Node entity (src/src/domain/models/Node.ts). -/
structure Node where
  id : String
  type : String
  role : String
  label : String
  note : String
  position : Position
  width : Int
  height : Int
  style : StyleMap
  data : DataMap
  handlers : List Handler
deriving DecidableEq, Repr

/-- Connection entity (src/src/domain/models/Connection.ts): holds only
identifier references to its endpoint handlers. -/
structure Connection where
  id : String
  type : String
  sourceHandlerId : String
  targetHandlerId : String
  pathType : PathType
  style : StyleMap
  label : Option LinkLabel
  data : DataMap
deriving DecidableEq, Repr

/-- Note entity. -/
structure Note where
  id : String
  text : String
  position : Position
  dims : Dimensions
deriving DecidableEq, Repr

/-- The store's canonical state (GraphState in src/src/core/types). -/
structure GraphState where
  nodes : List Node
  links : List Connection
  notes : List Note
  transform : Transform
deriving DecidableEq, Repr

/-! ## Serialized document form (src/src/core/types/api.types.ts) -/

structure SHandler where
  id : String
  type : String
  label : String
  flow : FlowType
  offset : Position
  direction : Direction
deriving DecidableEq, Repr

structure SNode where
  id : String
  type : String
  label : String
  note : String
  data : DataMap
  position : Position
  style : StyleMap
  handles : RecMap SHandler
deriving DecidableEq, Repr

structure SConnection where
  id : String
  type : String
  sourceHandlerId : String
  targetHandlerId : String
  pathType : PathType
  label : Option LinkLabel
  style : StyleMap
  data : DataMap
deriving DecidableEq, Repr

structure SNote where
  id : String
  text : String
  position : Position
  dims : Dimensions
deriving DecidableEq, Repr

structure Metadata where
  version : String
  createdAt : String
  viewport : Transform
deriving DecidableEq, Repr

/-- A well-typed serialized state (the type `SerializedState`). -/
structure SState where
  metadata : Metadata
  nodes : RecMap SNode
  connections : RecMap SConnection
  notes : RecMap SNote
deriving DecidableEq, Repr

/-! ## Plugin registry (src/src/core/Registry.ts)

The registry stores node and connection plugin definitions keyed by type.
The shape of a node definition, as far as this core consumes it, is its
`role` together with the handlers it constructs on a fresh node.

Modelled from the spec: the repository snapshot does not include the code
that generates a node's handlers from its plugin definition (the spec,
section 4.2: construction of a fresh Node from the plugin definition
regenerates handlers with newly minted IDs).  `HandlerSpec` records the
per-handler data a definition supplies (type, flow, role, offset, direction,
dimensions), and `freshHandlers` mints deterministic fresh identifiers. -/

structure HandlerSpec where
  type : String
  flow : FlowType
  role : String
  offset : Position
  direction : Direction
  dims : Dimensions
deriving DecidableEq, Repr

structure NodeDef where
  role : String
  handlerSpecs : List HandlerSpec
deriving DecidableEq, Repr

structure Registry where
  nodeDefs : RecMap NodeDef
  connTypes : List String
deriving DecidableEq, Repr

def Registry.getNodeDefinition (reg : Registry) (t : String) : Option NodeDef :=
  recLookup reg.nodeDefs t

def Registry.hasNodeType (reg : Registry) (t : String) : Bool :=
  (recLookup reg.nodeDefs t).isSome

def Registry.hasConnectionType (reg : Registry) (t : String) : Bool :=
  reg.connTypes.contains t

/-- Modelled from the spec: mints the identifier of the i-th freshly
constructed handler of a node (fresh IDs are regenerated on construction;
their exact shape is irrelevant, restoration overwrites matched ones). -/
def mintHandlerId (nodeId : String) (i : Nat) : String :=
  nodeId ++ "::h" ++ toString i

/-- Modelled from the spec: handlers created by the Node constructor from the
plugin definition, with newly minted IDs and the Handler constructor's
default empty label. -/
def freshHandlers (nodeId : String) (specs : List HandlerSpec) : List Handler :=
  specs.enum.map (fun p =>
    { id := mintHandlerId nodeId p.1
      type := p.2.type
      flow := p.2.flow
      role := p.2.role
      offset := p.2.offset
      direction := p.2.direction
      dims := p.2.dims
      label := "" })

/-! ## SerializationService.serialize (src/unnamed/part_000, lines 90-246)

`serialize` walks the store state into the versioned document.  The
`createdAt` timestamp (`new Date().toISOString()`) is modelled by the
explicit `now` argument. -/

def serializeHandler (h : Handler) : SHandler :=
  { id := h.id
    type := h.type
    label := h.label
    flow := h.flow
    offset := h.offset
    direction := h.direction }

def serializeHandlers (hs : List Handler) : RecMap SHandler :=
  hs.foldl (fun r h => recSet r h.id (serializeHandler h)) []

def serializeNode (n : Node) : SNode :=
  { id := n.id
    type := n.type
    label := n.label
    note := n.note
    data := n.data
    position := n.position
    style := n.style
    handles := serializeHandlers n.handlers }

def serializeNodes (ns : List Node) : RecMap SNode :=
  ns.foldl (fun r n => recSet r n.id (serializeNode n)) []

def serializeConnection (c : Connection) : SConnection :=
  { id := c.id
    type := c.type
    sourceHandlerId := c.sourceHandlerId
    targetHandlerId := c.targetHandlerId
    pathType := c.pathType
    label := c.label
    style := c.style
    data := c.data }

def serializeConnections (cs : List Connection) : RecMap SConnection :=
  cs.foldl (fun r c => recSet r c.id (serializeConnection c)) []

def serializeNote (n : Note) : SNote :=
  { id := n.id, text := n.text, position := n.position, dims := n.dims }

def serializeNotes (ns : List Note) : RecMap SNote :=
  ns.foldl (fun r n => recSet r n.id (serializeNote n)) []

def serialize (now : String) (s : GraphState) : SState :=
  { metadata := { version := "1.0.0", createdAt := now, viewport := s.transform }
    nodes := serializeNodes s.nodes
    connections := serializeConnections s.links
    notes := serializeNotes s.notes }

/-! ## SerializationService.deserialize (src/unnamed/part_000, lines 119-493) -/

/-- The `handlersByType` grouping of `restoreHandlerIds`: saved handlers of a
given type, in their original (insertion) order. -/
def savedOfType (saved : List SHandler) (t : String) : List SHandler :=
  saved.filter (fun sh => sh.type = t)

/-- The body of the per-handler restoration: the original ID is always
copied onto the freshly constructed handler, the label only when the saved
label is truthy (non-empty). -/
def restoreOne (h : Handler) (sh : SHandler) : Handler :=
  { h with
    id := sh.id
    label := if sh.label ≠ "" then sh.label else h.label }

/-- `restoreHandlerIds`: walks the node's (freshly constructed) handlers,
tracking per-type indices in `idx` (the `typeIndices` map), and matches each
against the saved handler of the same type and index, if any. -/
def restoreHandlerIds (saved : List SHandler) : List Handler → RecMap Nat → List Handler
  | [], _ => []
  | h :: rest, idx =>
      let j := (recLookup idx h.type).getD 0
      let idx' := recSet idx h.type (j + 1)
      let h' := match (savedOfType saved h.type).get? j with
        | some sh => restoreOne h sh
        | none => h
      h' :: restoreHandlerIds saved rest idx'

/-- Deserialization of one node record: resolve the plugin definition
(`none` models the skip of an unregistered type), construct a fresh node
from the definition, restore the saved handler IDs. -/
def deserializeNode (reg : Registry) (nd : SNode) : Option Node :=
  match reg.getNodeDefinition nd.type with
  | none => none
  | some d =>
      let fresh := freshHandlers nd.id d.handlerSpecs
      some
        { id := nd.id
          type := nd.type
          role := d.role
          label := nd.label
          note := nd.note
          position := nd.position
          width := 200
          height := 100
          style := nd.style
          data := nd.data
          handlers := restoreHandlerIds (recValues nd.handles) fresh [] }

/-- `deserializeNodes` over `Object.values`: returns the instances together
with the collected `skippedNodes` list. -/
def deserializeNodesList (reg : Registry) : List SNode → List Node × List String
  | [] => ([], [])
  | nd :: rest =>
      let r := deserializeNodesList reg rest
      match deserializeNode reg nd with
      | some n => (n :: r.1, r.2)
      | none => (r.1, nd.id :: r.2)

/-- `handlerExists`: search the reconstructed nodes for a handler ID. -/
def handlerExists (hid : String) (nodes : List Node) : Bool :=
  nodes.any (fun n => n.handlers.any (fun h => h.id = hid))

/-- Deserialization of one connection record: `none` models the skip of an
unregistered type or an unresolved endpoint handler (orphan). -/
def deserializeConn (reg : Registry) (nodes : List Node) (cd : SConnection) :
    Option Connection :=
  if reg.hasConnectionType cd.type = false then none
  else if handlerExists cd.sourceHandlerId nodes = false then none
  else if handlerExists cd.targetHandlerId nodes = false then none
  else some
    { id := cd.id
      type := cd.type
      sourceHandlerId := cd.sourceHandlerId
      targetHandlerId := cd.targetHandlerId
      pathType := cd.pathType
      style := cd.style
      label := cd.label
      data := cd.data }

/-- `deserializeConnections` over `Object.values`: instances together with
the collected `orphanedConnections` list. -/
def deserializeConnsList (reg : Registry) (nodes : List Node) :
    List SConnection → List Connection × List String
  | [] => ([], [])
  | cd :: rest =>
      let r := deserializeConnsList reg nodes rest
      match deserializeConn reg nodes cd with
      | some c => (c :: r.1, r.2)
      | none => (r.1, cd.id :: r.2)

def deserializeNote (nd : SNote) : Note :=
  { id := nd.id, text := nd.text, position := nd.position, dims := nd.dims }

/-- `deserialize` on a well-typed document (used by the round-trip claim):
nodes first, then connections against the reconstructed nodes, then notes. -/
def deserialize (reg : Registry) (d : SState) : GraphState :=
  let nodes := (deserializeNodesList reg (recValues d.nodes)).1
  let links := (deserializeConnsList reg nodes (recValues d.connections)).1
  { nodes := nodes
    links := links
    notes := (recValues d.notes).map deserializeNote
    transform := d.metadata.viewport }

/-! ## Raw documents (for failure-semantics claims)

A raw input document may be missing any of its top-level sections; in the
source, accessing a field of a missing section throws a TypeError which the
surrounding try/catch of `deserialize` converts into the hard
DeserializationError, while `validateState` has no try/catch of its own. -/

structure RawDoc where
  metadata : Option Metadata
  nodes : Option (RecMap SNode)
  connections : Option (RecMap SConnection)
  notes : Option (RecMap SNote)
deriving DecidableEq, Repr

/-- `deserialize` on a raw document.  Reading `data.metadata.version`,
`Object.values(data.nodes)` or `Object.values(data.connections)` on a
missing section throws, caught by the outer try/catch and surfaced as the
hard error; `data.notes || {}` defaults a missing notes section.  On
success, the reconstructed state is returned together with the
skipped-nodes and orphaned-connections report lists. -/
def deserializeRaw (reg : Registry) (d : RawDoc) :
    Except String (GraphState × List String × List String) :=
  match d.metadata, d.nodes, d.connections with
  | some md, some nds, some cns =>
      let nr := deserializeNodesList reg (recValues nds)
      let cr := deserializeConnsList reg nr.1 (recValues cns)
      .ok
        ({ nodes := nr.1
           links := cr.1
           notes := (recValues (d.notes.getD [])).map deserializeNote
           transform := md.viewport }, nr.2, cr.2)
  | _, _, _ => .error "Failed to deserialize graph state"

/-- `isCompatibleVersion`: compares only the major version component. -/
def isCompatibleVersion (version : String) : Bool :=
  (version.splitOn ".").headD "" = "1"

structure ValidationResult where
  valid : Bool
  warnings : List String
  errors : List String
deriving DecidableEq, Repr

/-- `validateState` (src/unnamed/part_000, lines 591-627), on a raw
document.  The version check and the per-entity plugin checks dereference
`data.metadata` / `data.nodes` / `data.connections` before the final
structure check, so a missing section throws (modelled as `.error`); the
final `if` mirrors the source's structure check, which in the `.ok` branch
can never fire. -/
def validateState (reg : Registry) (d : RawDoc) : Except String ValidationResult :=
  match d.metadata with
  | none => .error "TypeError: cannot read version of undefined"
  | some md =>
      let versionWarnings :=
        if isCompatibleVersion md.version then ([] : List String)
        else ["Version " ++ md.version ++ " may not be compatible"]
      match d.nodes with
      | none => .error "TypeError: cannot convert undefined to object"
      | some nds =>
          let nodeWarnings := (recValues nds).filterMap (fun nd =>
            if reg.hasNodeType nd.type then none
            else some ("Node type " ++ nd.type ++ " not registered"))
          match d.connections with
          | none => .error "TypeError: cannot convert undefined to object"
          | some cns =>
              let connWarnings := (recValues cns).filterMap (fun cd =>
                if reg.hasConnectionType cd.type then none
                else some ("Connection type " ++ cd.type ++ " not registered"))
              let errors :=
                if d.metadata.isNone || d.nodes.isNone || d.connections.isNone then
                  ["Invalid state structure"]
                else []
              .ok
                { valid := errors.isEmpty
                  warnings := versionWarnings ++ nodeWarnings ++ connWarnings
                  errors := errors }

/-! ## Graph Store (src/src/core/State.ts)

The store holds the canonical state and the two derived caches.  Commands
are modelled as functions returning the new store together with the list of
events emitted on the bus, in emission order. -/

inductive Event where
  | nodeCreated (n : Node)
  | nodeRemoved (id : String)
  | nodeUpdated (n : Node)
  | nodeMoved (id : String) (fromPos toPos : Position)
  | connectionCreated (c : Connection)
  | connectionRemoved (id : String)
  | connectionUpdated (c : Connection)
  | noteCreated (n : Note)
  | noteRemoved (id : String)
  | noteUpdated (n : Note)
  | stateLoaded
  | renderRequested
deriving DecidableEq, Repr

structure StoreCache where
  handlerPos : RecMap Position
  nodeToLinks : RecMap (List Connection)
deriving DecidableEq, Repr

structure Store where
  state : GraphState
  cache : StoreCache
deriving DecidableEq, Repr

/-- Does node `n` own a handler with identifier `hid`? -/
def ownsHandler (n : Node) (hid : String) : Bool :=
  n.handlers.any (fun h => h.id = hid)

/-- `findNodeByHandlerId`: first node owning the handler. -/
def findNodeByHandlerId (nodes : List Node) (hid : String) : Option Node :=
  nodes.find? (fun n => ownsHandler n hid)

/-- One step of `rebuildNodeToLinksCache`: file the link under its source
node, and under its target node when that is a different node. -/
def nodeToLinksStep (nodes : List Node) (m : RecMap (List Connection))
    (link : Connection) : RecMap (List Connection) :=
  let src := findNodeByHandlerId nodes link.sourceHandlerId
  let tgt := findNodeByHandlerId nodes link.targetHandlerId
  let m1 := match src with
    | some n => recSet m n.id ((recLookup m n.id).getD [] ++ [link])
    | none => m
  match tgt with
  | some n =>
      if (src.map Node.id) ≠ some n.id then
        recSet m1 n.id ((recLookup m1 n.id).getD [] ++ [link])
      else m1
  | none => m1

def rebuildNodeToLinksCache (s : GraphState) : RecMap (List Connection) :=
  s.links.foldl (nodeToLinksStep s.nodes) []

/-- `updateHandlerPositionCache`: refresh the absolute position of every
handler of `n` (node position plus handler offset). -/
def updateHandlerPositionCache (c : RecMap Position) (n : Node) : RecMap Position :=
  n.handlers.foldl
    (fun c h => recSet c h.id ⟨n.position.x + h.offset.x, n.position.y + h.offset.y⟩) c

def rebuildHandlerPositionCache (s : GraphState) : RecMap Position :=
  s.nodes.foldl updateHandlerPositionCache []

def removeHandlerPositionsForNode (c : RecMap Position) (n : Node) : RecMap Position :=
  n.handlers.foldl (fun c h => recDel c h.id) c

def rebuildAllCaches (s : GraphState) : StoreCache :=
  { handlerPos := rebuildHandlerPositionCache s
    nodeToLinks := rebuildNodeToLinksCache s }

/-- Query `getLinksForNode` (cache lookup, `|| []`). -/
def Store.getLinksForNode (st : Store) (id : String) : List Connection :=
  (recLookup st.cache.nodeToLinks id).getD []

/-- Query `getHandlerAbsolutePosition` (cache lookup, `|| null`). -/
def Store.getHandlerAbsolutePosition (st : Store) (hid : String) : Option Position :=
  recLookup st.cache.handlerPos hid

/-- Splice out the first list element with the given id (Array.findIndex +
splice). -/
def removeFirstLink : List Connection → String → List Connection
  | [], _ => []
  | l :: ls, id => if l.id = id then ls else l :: removeFirstLink ls id

def removeFirstNode : List Node → String → List Node
  | [], _ => []
  | n :: ns, id => if n.id = id then ns else n :: removeFirstNode ns id

def removeFirstNote : List Note → String → List Note
  | [], _ => []
  | n :: ns, id => if n.id = id then ns else n :: removeFirstNote ns id

/-- Replace the first node with the given id by `f` applied to it (the
source mutates the node found by `Array.find`). -/
def updateFirstNode (f : Node → Node) : List Node → String → List Node
  | [], _ => []
  | n :: ns, id => if n.id = id then f n :: ns else n :: updateFirstNode f ns id

def updateFirstLink (f : Connection → Connection) : List Connection → String → List Connection
  | [], _ => []
  | l :: ls, id => if l.id = id then f l :: ls else l :: updateFirstLink f ls id

def updateFirstNote (f : Note → Note) : List Note → String → List Note
  | [], _ => []
  | n :: ns, id => if n.id = id then f n :: ns else n :: updateFirstNote f ns id

/-- JS object spread merge `{...old, ...changes}` on a string-keyed map. -/
def jsMerge {α : Type} (old changes : List (String × α)) : List (String × α) :=
  changes.foldl (fun m kv => recSet m kv.1 kv.2) old

/-- `Partial<NodeData>` as consumed by `updateNode`. -/
structure NodeChanges where
  label : Option String
  note : Option String
  style : Option StyleMap
  data : Option DataMap
deriving DecidableEq, Repr

/-- `Partial<ConnectionData>` as consumed by `Connection.update`. -/
structure ConnChanges where
  label : Option LinkLabel
  style : Option StyleMap
  data : Option DataMap
  pathType : Option PathType
deriving DecidableEq, Repr

structure NoteChanges where
  text : Option String
  position : Option Position
  dims : Option Dimensions
deriving DecidableEq, Repr

def applyNodeChanges (n : Node) (ch : NodeChanges) : Node :=
  { n with
    label := ch.label.getD n.label
    note := ch.note.getD n.note
    style := match ch.style with
      | some s => jsMerge n.style s
      | none => n.style
    data := match ch.data with
      | some d => jsMerge n.data d
      | none => n.data }

/-- `Connection.update` (src/src/domain/models/Connection.ts). -/
def Connection.update (c : Connection) (ch : ConnChanges) : Connection :=
  { c with
    label := match ch.label with
      | some lb => some lb
      | none => c.label
    style := match ch.style with
      | some s => jsMerge c.style s
      | none => c.style
    data := match ch.data with
      | some d => jsMerge c.data d
      | none => c.data
    pathType := ch.pathType.getD c.pathType }

def applyNoteChanges (n : Note) (ch : NoteChanges) : Note :=
  { n with
    text := ch.text.getD n.text
    position := ch.position.getD n.position
    dims := ch.dims.getD n.dims }

/-- `addNode`: push, rebuild node-to-links cache, refresh the node's handler
positions, emit NODE_CREATED and RENDER_REQUESTED. -/
def Store.addNode (st : Store) (n : Node) : Store × List Event :=
  let state' := { st.state with nodes := st.state.nodes ++ [n] }
  ({ state := state'
     cache := { handlerPos := updateHandlerPositionCache st.cache.handlerPos n
                nodeToLinks := rebuildNodeToLinksCache state' } },
   [.nodeCreated n, .renderRequested])

/-- `removeLink`: splice the link out, rebuild the node-to-links cache, emit
CONNECTION_REMOVED and RENDER_REQUESTED; not-found is a logged no-op. -/
def Store.removeLink (st : Store) (id : String) : Store × List Event :=
  if st.state.links.any (fun l => l.id = id) then
    let state' := { st.state with links := removeFirstLink st.state.links id }
    ({ state := state'
       cache := { st.cache with nodeToLinks := rebuildNodeToLinksCache state' } },
     [.connectionRemoved id, .renderRequested])
  else (st, [])

/-- `removeNode`: cascade-remove the links connected per the cache, splice
the node out, rebuild the node-to-links cache, purge the node's handler
positions, emit NODE_REMOVED and RENDER_REQUESTED; not-found is a no-op. -/
def Store.removeNode (st : Store) (id : String) : Store × List Event :=
  match st.state.nodes.find? (fun nd => nd.id = id) with
  | none => (st, [])
  | some node =>
      let linked := st.getLinksForNode id
      let stepped := linked.foldl
        (fun acc l =>
          let r := Store.removeLink acc.1 l.id
          (r.1, acc.2 ++ r.2)) (st, ([] : List Event))
      let state' := { stepped.1.state with nodes := removeFirstNode stepped.1.state.nodes id }
      ({ state := state'
         cache := { handlerPos := removeHandlerPositionsForNode stepped.1.cache.handlerPos node
                    nodeToLinks := rebuildNodeToLinksCache state' } },
       stepped.2 ++ [.nodeRemoved id, .renderRequested])

/-- `updateNode`: merge the provided fields, emit NODE_UPDATED and
RENDER_REQUESTED; unknown ID is a no-op. -/
def Store.updateNode (st : Store) (id : String) (ch : NodeChanges) : Store × List Event :=
  match st.state.nodes.find? (fun nd => nd.id = id) with
  | none => (st, [])
  | some node =>
      let node' := applyNodeChanges node ch
      ({ st with state := { st.state with nodes := updateFirstNode (fun n => applyNodeChanges n ch) st.state.nodes id } },
       [.nodeUpdated node', .renderRequested])

/-- `moveNode`: overwrite the position, refresh that node's handler position
cache entries, emit NODE_MOVED (with old and new position) and
RENDER_REQUESTED; unknown ID is a no-op. -/
def Store.moveNode (st : Store) (id : String) (p : Position) : Store × List Event :=
  match st.state.nodes.find? (fun nd => nd.id = id) with
  | none => (st, [])
  | some node =>
      let node' := { node with position := p }
      ({ state := { st.state with nodes := updateFirstNode (fun n => { n with position := p }) st.state.nodes id }
         cache := { st.cache with handlerPos := updateHandlerPositionCache st.cache.handlerPos node' } },
       [.nodeMoved id node.position p, .renderRequested])

/-- `addLink`: push, rebuild node-to-links cache, emit CONNECTION_CREATED
and RENDER_REQUESTED. -/
def Store.addLink (st : Store) (l : Connection) : Store × List Event :=
  let state' := { st.state with links := st.state.links ++ [l] }
  ({ state := state'
     cache := { st.cache with nodeToLinks := rebuildNodeToLinksCache state' } },
   [.connectionCreated l, .renderRequested])

/-- `updateLink`: apply `Connection.update`, emit CONNECTION_UPDATED and
RENDER_REQUESTED; unknown ID is a no-op. -/
def Store.updateLink (st : Store) (id : String) (ch : ConnChanges) : Store × List Event :=
  match st.state.links.find? (fun l => l.id = id) with
  | none => (st, [])
  | some link =>
      let link' := link.update ch
      ({ st with state := { st.state with links := updateFirstLink (fun l => l.update ch) st.state.links id } },
       [.connectionUpdated link', .renderRequested])

/-- `addNote`: push, emit NOTE_CREATED and RENDER_REQUESTED (notes have no
cache interaction). -/
def Store.addNote (st : Store) (n : Note) : Store × List Event :=
  ({ st with state := { st.state with notes := st.state.notes ++ [n] } },
   [.noteCreated n, .renderRequested])

/-- `removeNote`: splice out, emit NOTE_REMOVED and RENDER_REQUESTED;
unknown ID is a no-op. -/
def Store.removeNote (st : Store) (id : String) : Store × List Event :=
  if st.state.notes.any (fun n => n.id = id) then
    ({ st with state := { st.state with notes := removeFirstNote st.state.notes id } },
     [.noteRemoved id, .renderRequested])
  else (st, [])

/-- `updateNote`: merge fields, emit NOTE_UPDATED and RENDER_REQUESTED;
unknown ID is a no-op. -/
def Store.updateNote (st : Store) (id : String) (ch : NoteChanges) : Store × List Event :=
  match st.state.notes.find? (fun n => n.id = id) with
  | none => (st, [])
  | some note =>
      let note' := applyNoteChanges note ch
      ({ st with state := { st.state with notes := updateFirstNote (fun n => applyNoteChanges n ch) st.state.notes id } },
       [.noteUpdated note', .renderRequested])

/-- `setTransform`: replace the viewport and emit RENDER_REQUESTED (the
source emits no other event here). -/
def Store.setTransform (st : Store) (t : Transform) : Store × List Event :=
  ({ st with state := { st.state with transform := t } }, [.renderRequested])

/-- `setState`: wholesale replacement; rebuilds both caches, emits
STATE_LOADED and RENDER_REQUESTED. -/
def Store.setState (_st : Store) (s : GraphState) : Store × List Event :=
  ({ state := s, cache := rebuildAllCaches s }, [.stateLoaded, .renderRequested])

/-! ## History Manager (src/src/services HistoryManager) -/

structure DeltaEntry (α : Type) where
  old : Option α
  new : Option α
deriving DecidableEq, Repr

structure StateDelta where
  nodes : RecMap (DeltaEntry SNode)
  connections : RecMap (DeltaEntry SConnection)
  viewport : Option (DeltaEntry Transform)
deriving DecidableEq, Repr

/-- The iteration order of `new Set([...oldKeys, ...newKeys])`. -/
def keysUnion (a b : List String) : List String :=
  a ++ b.filter (fun k => ¬ a.contains k)

/-- Classification of one entity id in `diff`: added (only `new`), removed
(only `old`), modified when the serialized records differ (the source
compares `JSON.stringify` output; on these structured records that is
structural equality), omitted when unchanged. -/
def diffRec {α : Type} [DecidableEq α] (old new : RecMap α) :
    List String → RecMap (DeltaEntry α)
  | [] => []
  | k :: ks =>
      match recLookup old k, recLookup new k with
      | none, some nv => (k, ⟨none, some nv⟩) :: diffRec old new ks
      | some ov, none => (k, ⟨some ov, none⟩) :: diffRec old new ks
      | some ov, some nv =>
          if ov ≠ nv then (k, ⟨some ov, some nv⟩) :: diffRec old new ks
          else diffRec old new ks
      | none, none => diffRec old new ks

/-- `HistoryManager.diff` (lines 247-310): per-id classification of nodes
and connections, viewport compared as a single unit. -/
def diff (oldState newState : SState) : StateDelta :=
  { nodes := diffRec oldState.nodes newState.nodes
      (keysUnion (recKeys oldState.nodes) (recKeys newState.nodes))
    connections := diffRec oldState.connections newState.connections
      (keysUnion (recKeys oldState.connections) (recKeys newState.connections))
    viewport :=
      if oldState.metadata.viewport ≠ newState.metadata.viewport then
        some ⟨some oldState.metadata.viewport, some newState.metadata.viewport⟩
      else none }

/-- Forward application of one delta entry (`applyPatch` body): a present
`new` adds or updates, otherwise a present `old` deletes. -/
def applyEntryF {α : Type} (m : RecMap α) (id : String) (e : DeltaEntry α) : RecMap α :=
  match e.new with
  | some v => recSet m id v
  | none =>
      match e.old with
      | some _ => recDel m id
      | none => m

/-- Inverse application of one delta entry (`applyInversePatch` body): a
present `old` restores, otherwise a present `new` deletes. -/
def applyEntryI {α : Type} (m : RecMap α) (id : String) (e : DeltaEntry α) : RecMap α :=
  match e.old with
  | some v => recSet m id v
  | none =>
      match e.new with
      | some _ => recDel m id
      | none => m

def applyEntriesF {α : Type} (m : RecMap α) (es : RecMap (DeltaEntry α)) : RecMap α :=
  es.foldl (fun m kv => applyEntryF m kv.1 kv.2) m

def applyEntriesI {α : Type} (m : RecMap α) (es : RecMap (DeltaEntry α)) : RecMap α :=
  es.foldl (fun m kv => applyEntryI m kv.1 kv.2) m

/-- `applyPatch` (lines 319-350). -/
def applyPatch (state : SState) (delta : StateDelta) : SState :=
  { state with
    nodes := applyEntriesF state.nodes delta.nodes
    connections := applyEntriesF state.connections delta.connections
    metadata :=
      match delta.viewport with
      | some e =>
          match e.new with
          | some v => { state.metadata with viewport := v }
          | none => state.metadata
      | none => state.metadata }

/-- `applyInversePatch` (lines 359-390). -/
def applyInversePatch (state : SState) (delta : StateDelta) : SState :=
  { state with
    nodes := applyEntriesI state.nodes delta.nodes
    connections := applyEntriesI state.connections delta.connections
    metadata :=
      match delta.viewport with
      | some e =>
          match e.old with
          | some v => { state.metadata with viewport := v }
          | none => state.metadata
      | none => state.metadata }

/-- `isEmptyPatch` (lines 398-404). -/
def isEmptyPatch (delta : StateDelta) : Bool :=
  delta.nodes.isEmpty && delta.connections.isEmpty && delta.viewport.isNone

/-- The history manager's state.  The top of each stack is the list's last
element (`Array.push`/`pop`); `Array.shift` evicts the head (oldest). -/
structure HM where
  undoStack : List StateDelta
  redoStack : List StateDelta
  headState : Option SState
  maxDepth : Nat
deriving DecidableEq, Repr

/-- `save` (lines 90-124), taking the freshly serialized state as argument
(the injected serialize callback's result).  The returned Bool records
whether a HISTORY_CHANGED notification fired. -/
def HM.save (hm : HM) (newState : SState) : HM × Bool :=
  match hm.headState with
  | none => ({ hm with headState := some newState }, true)
  | some head =>
      let delta := diff head newState
      if isEmptyPatch delta then (hm, false)
      else
        let pushed := hm.undoStack ++ [delta]
        let limited := if pushed.length > hm.maxDepth then pushed.tail else pushed
        ({ hm with
            undoStack := limited
            redoStack := []
            headState := some newState }, true)

/-- `undo` (lines 132-159): pop the most recent delta, apply the inverse
patch to `headState`, push the delta to the redo stack.  (With a null
`headState` and a non-empty stack the source's catch-all returns false;
that configuration is unreachable.) -/
def HM.undo (hm : HM) : HM × Bool :=
  match hm.undoStack.getLast?, hm.headState with
  | some delta, some head =>
      let prev := applyInversePatch head delta
      ({ hm with
          undoStack := hm.undoStack.dropLast
          redoStack := hm.redoStack ++ [delta]
          headState := some prev }, true)
  | some _, none => (hm, false)
  | none, _ => (hm, false)

/-- `redo` (lines 167-194). -/
def HM.redo (hm : HM) : HM × Bool :=
  match hm.redoStack.getLast?, hm.headState with
  | some delta, some head =>
      let next := applyPatch head delta
      ({ hm with
          redoStack := hm.redoStack.dropLast
          undoStack := hm.undoStack ++ [delta]
          headState := some next }, true)
  | some _, none => (hm, false)
  | none, _ => (hm, false)

/-! ## Write-command dispatch (for the command/event contract) -/

/-- The store's write commands with their payloads (`setTransform` is kept
separate because its event behaviour differs). -/
inductive Cmd where
  | addNode (n : Node)
  | removeNode (id : String)
  | updateNode (id : String) (ch : NodeChanges)
  | moveNode (id : String) (p : Position)
  | addLink (l : Connection)
  | removeLink (id : String)
  | updateLink (id : String) (ch : ConnChanges)
  | addNote (n : Note)
  | removeNote (id : String)
  | updateNote (id : String) (ch : NoteChanges)
  | setState (s : GraphState)
deriving DecidableEq, Repr

def runCmd (st : Store) : Cmd → Store × List Event
  | .addNode n => st.addNode n
  | .removeNode id => st.removeNode id
  | .updateNode id ch => st.updateNode id ch
  | .moveNode id p => st.moveNode id p
  | .addLink l => st.addLink l
  | .removeLink id => st.removeLink id
  | .updateLink id ch => st.updateLink id ch
  | .addNote n => st.addNote n
  | .removeNote id => st.removeNote id
  | .updateNote id ch => st.updateNote id ch
  | .setState s => st.setState s

/-- The precondition of a write command: the target entity exists for
remove/update/move commands (adds and setState always apply; a null
argument to an add is excluded by typing). -/
def cmdPre (st : Store) : Cmd → Bool
  | .addNode _ => true
  | .removeNode id => (st.state.nodes.find? (fun nd => nd.id = id)).isSome
  | .updateNode id _ => (st.state.nodes.find? (fun nd => nd.id = id)).isSome
  | .moveNode id _ => (st.state.nodes.find? (fun nd => nd.id = id)).isSome
  | .addLink _ => true
  | .removeLink id => st.state.links.any (fun l => l.id = id)
  | .updateLink id _ => (st.state.links.find? (fun l => l.id = id)).isSome
  | .addNote _ => true
  | .removeNote id => st.state.notes.any (fun n => n.id = id)
  | .updateNote id _ => (st.state.notes.find? (fun n => n.id = id)).isSome
  | .setState _ => true

/-- Is this event the typed change notification specific to the command? -/
def eventKindMatches : Cmd → Event → Bool
  | .addNode _, .nodeCreated _ => true
  | .removeNode id, .nodeRemoved id' => id = id'
  | .updateNode id _, .nodeUpdated n => n.id = id
  | .moveNode id _, .nodeMoved id' _ _ => id = id'
  | .addLink _, .connectionCreated _ => true
  | .removeLink id, .connectionRemoved id' => id = id'
  | .updateLink id _, .connectionUpdated c => c.id = id
  | .addNote _, .noteCreated _ => true
  | .removeNote id, .noteRemoved id' => id = id'
  | .updateNote id _, .noteUpdated n => n.id = id
  | .setState _, .stateLoaded => true
  | _, _ => false

/-- A typed change notification of any kind: everything the store emits
except the render request. -/
def isTypedChange : Event → Bool
  | .renderRequested => false
  | _ => true

/-! ## Concrete fixtures (used by witnesses and counterexamples) -/

/-- An empty store, as built by the Store constructor. -/
def emptyStore : Store :=
  { state := { nodes := [], links := [], notes := [], transform := ⟨1, 0, 0⟩ }
    cache := { handlerPos := [], nodeToLinks := [] } }

def exSpecIn : HandlerSpec :=
  { type := "input", flow := .flowIn, role := "", offset := ⟨0, 40⟩,
    direction := .dLeft, dims := ⟨12, 12⟩ }

def exSpecOut : HandlerSpec :=
  { type := "output", flow := .flowOut, role := "", offset := ⟨160, 40⟩,
    direction := .dRight, dims := ⟨12, 12⟩ }

def exRegistry : Registry :=
  { nodeDefs := [("task", { role := "Tools", handlerSpecs := [exSpecIn, exSpecOut] })]
    connTypes := ["default"] }

def exHandlerIn : Handler :=
  { id := "hA", type := "input", flow := .flowIn, role := "", offset := ⟨0, 40⟩,
    direction := .dLeft, dims := ⟨12, 12⟩, label := "" }

def exHandlerOut : Handler :=
  { id := "hB", type := "output", flow := .flowOut, role := "", offset := ⟨160, 40⟩,
    direction := .dRight, dims := ⟨12, 12⟩, label := "out" }

def exNode : Node :=
  { id := "n1", type := "task", role := "Tools", label := "T", note := "",
    position := ⟨10, 20⟩, width := 200, height := 100, style := [],
    data := [("k", "v")], handlers := [exHandlerIn, exHandlerOut] }

def exConn : Connection :=
  { id := "c1", type := "default", sourceHandlerId := "hB", targetHandlerId := "hA",
    pathType := .bezier, style := [("sw", 2)], label := none, data := [] }

def exState : GraphState :=
  { nodes := [exNode], links := [exConn],
    notes := [⟨"note1", "txt", ⟨1, 2⟩, ⟨3, 4⟩⟩], transform := ⟨1, 0, 0⟩ }

def exStore : Store := { state := exState, cache := rebuildAllCaches exState }

/-! ## Theorems -/

/-- C9, failing input: a document whose top-level `metadata` section is
missing.  `validateState` dereferences `data.metadata.version` before its
structure check, so instead of returning `{valid: false, errors: [...]}` it
throws; the structure check is unreachable for exactly the inputs it was
written for. -/
theorem C9_validateState_throws_on_missing_metadata :
    validateState { nodeDefs := [], connTypes := [] }
      { metadata := none, nodes := some [], connections := some [],
        notes := none }
      = Except.error "TypeError: cannot read version of undefined" := rfl

/-- C8, counterexample to the claim as stated: `setTransform` emits no
typed change notification at all (only the render request), so not every
write command emits both. -/
theorem C8_counterexample_setTransform_no_typed_event :
    (Store.setTransform emptyStore ⟨2, 3, 4⟩).2.any isTypedChange = false := rfl

/-- C8 (amended): every write command other than `setTransform`, when its
precondition holds, emits both its operation-specific typed change
notification and a render-request notification; `setTransform` emits
exactly the render request. -/
theorem C8_write_commands_emit_typed_and_render (st : Store) (c : Cmd)
    (t : Transform) (h : cmdPre st c = true) :
    ((runCmd st c).2.any (eventKindMatches c) = true ∧
      Event.renderRequested ∈ (runCmd st c).2) ∧
    (Store.setTransform st t).2 = [Event.renderRequested] := by
  refine ⟨?_, rfl⟩
  cases c with
  | addNode n => exact ⟨by simp [runCmd, Store.addNode, eventKindMatches], by simp [runCmd, Store.addNode]⟩
  | removeNode id =>
      simp [cmdPre, Option.isSome_iff_exists] at h
      obtain ⟨node, hnode⟩ := h
      constructor
      · simp [runCmd, Store.removeNode, hnode, List.any_append, eventKindMatches]
      · simp [runCmd, Store.removeNode, hnode]
  | updateNode id ch =>
      simp [cmdPre, Option.isSome_iff_exists] at h
      obtain ⟨node, hnode⟩ := h
      have hid : node.id = id := by
        have := List.find?_some hnode
        simpa using this
      constructor
      · simp [runCmd, Store.updateNode, hnode, eventKindMatches, applyNodeChanges, hid]
      · simp [runCmd, Store.updateNode, hnode]
  | moveNode id p =>
      simp [cmdPre, Option.isSome_iff_exists] at h
      obtain ⟨node, hnode⟩ := h
      constructor
      · simp [runCmd, Store.moveNode, hnode, eventKindMatches]
      · simp [runCmd, Store.moveNode, hnode]
  | addLink l => exact ⟨by simp [runCmd, Store.addLink, eventKindMatches], by simp [runCmd, Store.addLink]⟩
  | removeLink id =>
      simp [cmdPre] at h
      constructor
      · simp [runCmd, Store.removeLink, h, eventKindMatches]
      · simp [runCmd, Store.removeLink, h]
  | updateLink id ch =>
      simp [cmdPre, Option.isSome_iff_exists] at h
      obtain ⟨link, hlink⟩ := h
      have hid : link.id = id := by
        have := List.find?_some hlink
        simpa using this
      constructor
      · simp [runCmd, Store.updateLink, hlink, eventKindMatches, Connection.update, hid]
      · simp [runCmd, Store.updateLink, hlink]
  | addNote n => exact ⟨by simp [runCmd, Store.addNote, eventKindMatches], by simp [runCmd, Store.addNote]⟩
  | removeNote id =>
      simp [cmdPre] at h
      constructor
      · simp [runCmd, Store.removeNote, h, eventKindMatches]
      · simp [runCmd, Store.removeNote, h]
  | updateNote id ch =>
      simp [cmdPre, Option.isSome_iff_exists] at h
      obtain ⟨note, hnote⟩ := h
      have hid : note.id = id := by
        have := List.find?_some hnote
        simpa using this
      constructor
      · simp [runCmd, Store.updateNote, hnote, eventKindMatches, applyNoteChanges, hid]
      · simp [runCmd, Store.updateNote, hnote]
  | setState s => exact ⟨by simp [runCmd, Store.setState, eventKindMatches], by simp [runCmd, Store.setState]⟩

/-- C8 witness: the amended contract exercised on a concrete store for the
removeNode command. -/
theorem C8_witness :
    cmdPre exStore (.removeNode "n1") = true ∧
    (((runCmd exStore (.removeNode "n1")).2.any (eventKindMatches (.removeNode "n1")) = true ∧
        Event.renderRequested ∈ (runCmd exStore (.removeNode "n1")).2) ∧
      (Store.setTransform exStore ⟨2, 3, 4⟩).2 = [Event.renderRequested]) :=
  ⟨by decide,
    C8_write_commands_emit_typed_and_render exStore (.removeNode "n1") ⟨2, 3, 4⟩ (by decide)⟩

/-- Folding handler-keyed assignments over handlers whose ids all differ
from `k` leaves the binding of `k` unchanged. -/
theorem recLookup_foldl_set_not_mem {α : Type} (f : Handler → α) (hs : List Handler)
    (c : RecMap α) (k : String) (h : ∀ x ∈ hs, x.id ≠ k) :
    recLookup (hs.foldl (fun c x => recSet c x.id (f x)) c) k = recLookup c k := by
  induction hs generalizing c with
  | nil => rfl
  | cons hd tl ih =>
      have hhd : hd.id ≠ k := h hd (by simp)
      have htl : ∀ x ∈ tl, x.id ≠ k := fun x hx => h x (by simp [hx])
      simp only [List.foldl_cons]
      rw [ih (recSet c hd.id (f hd)) htl, recLookup_recSet_ne _ _ _ _ (Ne.symm hhd)]

/-- Folding handler-keyed assignments over a duplicate-free handler list
binds each handler's id to its own value. -/
theorem recLookup_foldl_set_mem {α : Type} (f : Handler → α) (hs : List Handler)
    (c : RecMap α) (h : Handler) (hmem : h ∈ hs)
    (hnd : (hs.map Handler.id).Nodup) :
    recLookup (hs.foldl (fun c x => recSet c x.id (f x)) c) h.id = some (f h) := by
  induction hs generalizing c with
  | nil => cases hmem
  | cons hd tl ih =>
      simp only [List.map_cons, List.nodup_cons] at hnd
      rcases List.mem_cons.mp hmem with rfl | hmem'
      · simp only [List.foldl_cons]
        have htl : ∀ x ∈ tl, x.id ≠ h.id := by
          intro x hx he
          exact hnd.1 (he ▸ List.mem_map_of_mem Handler.id hx)
        rw [recLookup_foldl_set_not_mem f tl _ h.id htl, recLookup_recSet_self]
      · simp only [List.foldl_cons]
        exact ih (recSet c hd.id (f hd)) hmem' hnd.2

/-- C4: after `moveNode(id, p)`, `getHandlerAbsolutePosition` returns
exactly `p + offset` for every handler owned by the moved node — the
handler position cache holds no stale entry for them. -/
theorem C4_moveNode_handler_positions (st : Store) (id : String) (p : Position)
    (node : Node)
    (hfind : st.state.nodes.find? (fun nd => nd.id = id) = some node)
    (hnd : (node.handlers.map Handler.id).Nodup) :
    ∀ h ∈ node.handlers,
      (Store.moveNode st id p).1.getHandlerAbsolutePosition h.id =
        some ⟨p.x + h.offset.x, p.y + h.offset.y⟩ := by
  intro h hmem
  have key := recLookup_foldl_set_mem
    (fun x => (⟨p.x + x.offset.x, p.y + x.offset.y⟩ : Position))
    node.handlers st.cache.handlerPos h hmem hnd
  simpa [Store.moveNode, hfind, Store.getHandlerAbsolutePosition,
    updateHandlerPositionCache] using key

/-- C4 witness: move the example node and read back one of its handlers. -/
theorem C4_witness :
    exStore.state.nodes.find? (fun nd => nd.id = "n1") = some exNode ∧
    (Store.moveNode exStore "n1" ⟨5, 7⟩).1.getHandlerAbsolutePosition "hA" =
      some ⟨5, 47⟩ :=
  ⟨by decide,
    C4_moveNode_handler_positions exStore "n1" ⟨5, 7⟩ exNode (by decide) (by decide)
      exHandlerIn (by decide)⟩

/-- Diffing a record against itself yields no entries. -/
theorem diffRec_self {α : Type} [DecidableEq α] (m : RecMap α) (ks : List String) :
    diffRec m m ks = [] := by
  induction ks with
  | nil => rfl
  | cons k ks ih =>
      cases h : recLookup m k <;> simp [diffRec, h, ih]

/-- Two serializations of the same store state (taken at different clock
readings) differ only in the createdAt stamp, which `diff` never reads. -/
theorem diff_serialize_createdAt (h : SState) (st : GraphState) (a b : String) :
    diff h (serialize a st) = diff h (serialize b st) := rfl

/-- The diff between two serializations of the same store state is empty. -/
theorem isEmptyPatch_diff_serialize (st : GraphState) (a b : String) :
    isEmptyPatch (diff (serialize a st) (serialize b st)) = true := by
  simp [diff, serialize, isEmptyPatch, diffRec_self]

/-- C6: with a headState established, `save` discards an empty diff
entirely (same manager, no event); a non-empty diff is pushed on top of the
undo stack (evicting the oldest entry when the depth would exceed
maxDepth), the redo stack is cleared, the headState becomes the new
snapshot and the status event fires; and two consecutive saves of the same
store state leave the undo depth unchanged after the second. -/
theorem C6_save_semantics (hm : HM) (head : SState) (S : SState)
    (hhead : hm.headState = some head) (hdepth : 1 ≤ hm.maxDepth) :
    (isEmptyPatch (diff head S) = true → HM.save hm S = (hm, false)) ∧
    (isEmptyPatch (diff head S) = false →
       (HM.save hm S).1.redoStack = [] ∧
       (HM.save hm S).1.headState = some S ∧
       (HM.save hm S).1.undoStack.getLast? = some (diff head S) ∧
       (HM.save hm S).1.undoStack.length =
         (if hm.undoStack.length + 1 > hm.maxDepth then hm.undoStack.length
          else hm.undoStack.length + 1) ∧
       (HM.save hm S).2 = true) ∧
    (∀ (st : GraphState) (now1 now2 : String),
       ((HM.save hm (serialize now1 st)).1.save (serialize now2 st)).1.undoStack.length =
         (HM.save hm (serialize now1 st)).1.undoStack.length) := by
  refine ⟨?_, ?_, ?_⟩
  · intro he
    simp [HM.save, hhead, he]
  · intro he
    have hlen : (hm.undoStack ++ [diff head S]).length = hm.undoStack.length + 1 := by simp
    by_cases hgt : hm.undoStack.length + 1 > hm.maxDepth
    · have hstack : 1 ≤ hm.undoStack.length := by omega
      obtain ⟨d0, rest, hrest⟩ : ∃ d0 rest, hm.undoStack = d0 :: rest := by
        cases hu : hm.undoStack with
        | nil => rw [hu] at hstack; simp at hstack
        | cons d0 rest => exact ⟨d0, rest, rfl⟩
      have hlr : hm.undoStack.length = rest.length + 1 := by rw [hrest]; simp
      have hc : hm.maxDepth < rest.length + 1 + 1 := by omega
      refine ⟨by simp [HM.save, hhead, he, hlen, hgt], by simp [HM.save, hhead, he, hlen, hgt], ?_, ?_, by simp [HM.save, hhead, he, hlen, hgt]⟩
      · simp [HM.save, hhead, he, hlen, hgt, hrest, hc, List.getLast?_concat]
      · simp [HM.save, hhead, he, hlen, hgt, hrest, hc]
    · refine ⟨by simp [HM.save, hhead, he, hlen, hgt], by simp [HM.save, hhead, he, hlen, hgt], ?_, ?_, by simp [HM.save, hhead, he, hlen, hgt]⟩
      · simp [HM.save, hhead, he, hlen, hgt, List.getLast?_concat]
      · simp [HM.save, hhead, he, hlen, hgt]
  · intro st now1 now2
    by_cases he : isEmptyPatch (diff head (serialize now1 st)) = true
    · have h1 : HM.save hm (serialize now1 st) = (hm, false) := by
        simp [HM.save, hhead, he]
      have he2 : isEmptyPatch (diff head (serialize now2 st)) = true := he
      rw [h1]
      simp [HM.save, hhead, he2]
    · have h1 : (HM.save hm (serialize now1 st)).1.headState = some (serialize now1 st) := by
        simp [HM.save, hhead, he]
      have he2 : isEmptyPatch (diff (serialize now1 st) (serialize now2 st)) = true :=
        isEmptyPatch_diff_serialize st now1 now2
      cases hsave : HM.save hm (serialize now1 st) with
      | mk hm1 b1 =>
          rw [hsave] at h1
          simp at h1
          simp [HM.save, h1, he2]

/-- A concrete history manager whose baseline snapshot is the example
state. -/
def exHM : HM :=
  { undoStack := [], redoStack := [], headState := some (serialize "t0" exState)
    maxDepth := 50 }

/-- C6 witness: the empty-diff branch exercised on a concrete manager. -/
theorem C6_witness :
    exHM.headState = some (serialize "t0" exState) ∧
    HM.save exHM (serialize "t1" exState) = (exHM, false) :=
  ⟨rfl,
    (C6_save_semantics exHM (serialize "t0" exState) (serialize "t1" exState) rfl
      (by decide)).1 (isEmptyPatch_diff_serialize exState "t0" "t1")⟩

/-! ### Delta application: lookup characterizations -/

/-- Effect of a forward delta entry on the binding it targets. -/
def entryF {α : Type} (e : DeltaEntry α) (cur : Option α) : Option α :=
  match e.new with
  | some v => some v
  | none =>
      match e.old with
      | some _ => none
      | none => cur

/-- Effect of an inverse delta entry on the binding it targets. -/
def entryI {α : Type} (e : DeltaEntry α) (cur : Option α) : Option α :=
  match e.old with
  | some v => some v
  | none =>
      match e.new with
      | some _ => none
      | none => cur

theorem recLookup_applyEntryF_self {α : Type} (m : RecMap α) (id : String)
    (e : DeltaEntry α) : recLookup (applyEntryF m id e) id = entryF e (recLookup m id) := by
  cases hn : e.new with
  | some v => simp [applyEntryF, entryF, hn]
  | none =>
      cases ho : e.old with
      | some v => simp [applyEntryF, entryF, hn, ho]
      | none => simp [applyEntryF, entryF, hn, ho]

theorem recLookup_applyEntryF_ne {α : Type} (m : RecMap α) (id k : String)
    (e : DeltaEntry α) (h : k ≠ id) :
    recLookup (applyEntryF m id e) k = recLookup m k := by
  cases hn : e.new with
  | some v => simp [applyEntryF, hn, recLookup_recSet_ne _ _ _ _ h]
  | none =>
      cases ho : e.old with
      | some v => simp [applyEntryF, hn, ho, recLookup_recDel_ne _ _ _ h]
      | none => simp [applyEntryF, hn, ho]

theorem recLookup_applyEntryI_self {α : Type} (m : RecMap α) (id : String)
    (e : DeltaEntry α) : recLookup (applyEntryI m id e) id = entryI e (recLookup m id) := by
  cases ho : e.old with
  | some v => simp [applyEntryI, entryI, ho]
  | none =>
      cases hn : e.new with
      | some v => simp [applyEntryI, entryI, hn, ho]
      | none => simp [applyEntryI, entryI, hn, ho]

theorem recLookup_applyEntryI_ne {α : Type} (m : RecMap α) (id k : String)
    (e : DeltaEntry α) (h : k ≠ id) :
    recLookup (applyEntryI m id e) k = recLookup m k := by
  cases ho : e.old with
  | some v => simp [applyEntryI, ho, recLookup_recSet_ne _ _ _ _ h]
  | none =>
      cases hn : e.new with
      | some v => simp [applyEntryI, hn, ho, recLookup_recDel_ne _ _ _ h]
      | none => simp [applyEntryI, hn, ho]

theorem recLookup_applyEntriesF {α : Type} (es : RecMap (DeltaEntry α))
    (hnd : (recKeys es).Nodup) (m : RecMap α) (k : String) :
    recLookup (applyEntriesF m es) k =
      match recLookup es k with
      | some e => entryF e (recLookup m k)
      | none => recLookup m k := by
  induction es generalizing m with
  | nil => rfl
  | cons kv rest ih =>
      simp only [recKeys, List.map_cons, List.nodup_cons] at hnd
      by_cases hk : kv.1 = k
      · subst hk
        have hrest : recLookup rest kv.1 = none :=
          recLookup_eq_none_of_not_mem rest kv.1 hnd.1
        simp only [applyEntriesF, List.foldl_cons]
        have := ih hnd.2 (applyEntryF m kv.1 kv.2)
        simp only [applyEntriesF] at this
        rw [this, hrest, recLookup_cons]
        simp [recLookup_applyEntryF_self]
      · simp only [applyEntriesF, List.foldl_cons]
        have := ih hnd.2 (applyEntryF m kv.1 kv.2)
        simp only [applyEntriesF] at this
        rw [this, recLookup_cons]
        simp only [hk, if_false]
        cases recLookup rest k <;>
          simp [recLookup_applyEntryF_ne m kv.1 k kv.2 (fun he => hk he.symm)]

theorem recLookup_applyEntriesI {α : Type} (es : RecMap (DeltaEntry α))
    (hnd : (recKeys es).Nodup) (m : RecMap α) (k : String) :
    recLookup (applyEntriesI m es) k =
      match recLookup es k with
      | some e => entryI e (recLookup m k)
      | none => recLookup m k := by
  induction es generalizing m with
  | nil => rfl
  | cons kv rest ih =>
      simp only [recKeys, List.map_cons, List.nodup_cons] at hnd
      by_cases hk : kv.1 = k
      · subst hk
        have hrest : recLookup rest kv.1 = none :=
          recLookup_eq_none_of_not_mem rest kv.1 hnd.1
        simp only [applyEntriesI, List.foldl_cons]
        have := ih hnd.2 (applyEntryI m kv.1 kv.2)
        simp only [applyEntriesI] at this
        rw [this, hrest, recLookup_cons]
        simp [recLookup_applyEntryI_self]
      · simp only [applyEntriesI, List.foldl_cons]
        have := ih hnd.2 (applyEntryI m kv.1 kv.2)
        simp only [applyEntriesI] at this
        rw [this, recLookup_cons]
        simp only [hk, if_false]
        cases recLookup rest k <;>
          simp [recLookup_applyEntryI_ne m kv.1 k kv.2 (fun he => hk he.symm)]

/-! ### diff: lookup characterization -/

theorem diffRec_keys_sublist {α : Type} [DecidableEq α] (old new : RecMap α)
    (ks : List String) : List.Sublist (recKeys (diffRec old new ks)) ks := by
  induction ks with
  | nil => simp [diffRec, recKeys]
  | cons k ks ih =>
      cases ho : recLookup old k <;> cases hn : recLookup new k
      · simpa [diffRec, ho, hn, recKeys] using ih.cons k
      · simpa [diffRec, ho, hn, recKeys] using ih.cons₂ k
      · simpa [diffRec, ho, hn, recKeys] using ih.cons₂ k
      · rename_i ov nv
        by_cases he : ov = nv
        · simpa [diffRec, ho, hn, he, recKeys] using ih.cons k
        · simpa [diffRec, ho, hn, he, recKeys] using ih.cons₂ k

theorem diffRec_lookup_not_mem {α : Type} [DecidableEq α] (old new : RecMap α)
    (ks : List String) (k : String) (h : k ∉ ks) :
    recLookup (diffRec old new ks) k = none := by
  apply recLookup_eq_none_of_not_mem
  intro hmem
  exact h (List.Sublist.mem hmem (diffRec_keys_sublist old new ks))

/-- The value `diff` files for an id that occurs in the iterated key list:
the added/removed/modified classification of the two bindings. -/
theorem diffRec_lookup_mem {α : Type} [DecidableEq α] (old new : RecMap α)
    (ks : List String) (k : String) (h : k ∈ ks) :
    recLookup (diffRec old new ks) k =
      match recLookup old k, recLookup new k with
      | none, some nv => some ⟨none, some nv⟩
      | some ov, none => some ⟨some ov, none⟩
      | some ov, some nv => if ov ≠ nv then some ⟨some ov, some nv⟩ else none
      | none, none => none := by
  induction ks with
  | nil => cases h
  | cons k0 ks ih =>
      by_cases hk : k0 = k
      · subst hk
        cases ho : recLookup old k0 <;> cases hn : recLookup new k0
        · rcases List.mem_cons.mp h with h' | h'
          · simp [diffRec, ho, hn]
            by_cases hmem : k0 ∈ ks
            · simpa [ho, hn] using ih hmem
            · exact diffRec_lookup_not_mem old new ks k0 hmem
          · simp [diffRec, ho, hn]
            simpa [ho, hn] using ih h'
        · simp [diffRec, ho, hn, recLookup_cons]
        · simp [diffRec, ho, hn, recLookup_cons]
        · rename_i ov nv
          by_cases he : ov = nv
          · rcases List.mem_cons.mp h with h' | h'
            · by_cases hmem : k0 ∈ ks
              · simpa [diffRec, ho, hn, he] using ih hmem
              · simpa [diffRec, ho, hn, he] using
                  diffRec_lookup_not_mem old new ks k0 hmem
            · simpa [diffRec, ho, hn, he] using ih h'
          · simp [diffRec, ho, hn, he, recLookup_cons]
      · rcases List.mem_cons.mp h with h' | h'
        · exact absurd h'.symm hk
        · have step : recLookup (diffRec old new (k0 :: ks)) k =
              recLookup (diffRec old new ks) k := by
            cases ho : recLookup old k0 <;> cases hn : recLookup new k0
            · simp [diffRec, ho, hn]
            · simp [diffRec, ho, hn, recLookup_cons, hk]
            · simp [diffRec, ho, hn, recLookup_cons, hk]
            · rename_i ov nv
              by_cases he : ov = nv
              · simp [diffRec, ho, hn, he]
              · simp [diffRec, ho, hn, he, recLookup_cons, hk]
          rw [step]
          exact ih h'

theorem mem_keysUnion {a b : List String} {k : String} :
    k ∈ keysUnion a b ↔ k ∈ a ∨ k ∈ b := by
  simp [keysUnion]
  constructor
  · rintro (h | ⟨h, _⟩)
    · exact Or.inl h
    · exact Or.inr h
  · rintro (h | h)
    · exact Or.inl h
    · by_cases ha : k ∈ a
      · exact Or.inl ha
      · exact Or.inr ⟨h, ha⟩

theorem keysUnion_nodup {a b : List String} (ha : a.Nodup) (hb : b.Nodup) :
    (keysUnion a b).Nodup := by
  refine List.Nodup.append ha (List.Nodup.filter _ hb) ?_
  intro k hka hkb
  have := List.of_mem_filter hkb
  simp at this
  exact this hka

/-! ### State equivalence

Serialized states are JSON documents whose `nodes`/`connections` sections
are id-keyed objects; two states are the same snapshot when the sections
agree as maps and the viewport agrees (entry order and the createdAt stamp
carry no meaning). -/

def recEquiv {α : Type} (a b : RecMap α) : Prop :=
  ∀ k, recLookup a k = recLookup b k

def sstateEquiv (a b : SState) : Prop :=
  recEquiv a.nodes b.nodes ∧ recEquiv a.connections b.connections ∧
    a.metadata.viewport = b.metadata.viewport

theorem sstateEquiv_trans {a b c : SState} (h1 : sstateEquiv a b)
    (h2 : sstateEquiv b c) : sstateEquiv a c :=
  ⟨fun k => (h1.1 k).trans (h2.1 k), fun k => (h1.2.1 k).trans (h2.2.1 k),
    h1.2.2.trans h2.2.2⟩

/-- Forward-applying the diff of `old` against `new` to `old` reproduces
`new` (as a map). -/
theorem applyEntriesF_diff_endpoint {α : Type} [DecidableEq α] (old new : RecMap α)
    (ho : (recKeys old).Nodup) (hn : (recKeys new).Nodup) :
    recEquiv (applyEntriesF old (diffRec old new (keysUnion (recKeys old) (recKeys new)))) new := by
  intro k
  have hks : (keysUnion (recKeys old) (recKeys new)).Nodup := keysUnion_nodup ho hn
  have hes : (recKeys (diffRec old new (keysUnion (recKeys old) (recKeys new)))).Nodup :=
    List.Nodup.sublist (diffRec_keys_sublist old new _) hks
  rw [recLookup_applyEntriesF _ hes]
  by_cases hk : k ∈ keysUnion (recKeys old) (recKeys new)
  · rw [diffRec_lookup_mem old new _ k hk]
    cases hol : recLookup old k <;> cases hnl : recLookup new k
    · simp [entryF, hol, hnl]
    · simp [entryF, hol, hnl]
    · simp [entryF, hol, hnl]
    · rename_i ov nv
      by_cases he : ov = nv
      · simp [entryF, hol, hnl, he]
      · simp [entryF, hol, hnl, he]
  · have hko : k ∉ recKeys old := fun hm => hk (mem_keysUnion.mpr (Or.inl hm))
    have hkn : k ∉ recKeys new := fun hm => hk (mem_keysUnion.mpr (Or.inr hm))
    rw [diffRec_lookup_not_mem old new _ k hk]
    simp [recLookup_eq_none_of_not_mem _ _ hko, recLookup_eq_none_of_not_mem _ _ hkn]

/-- Inverse-applying the diff of `old` against `new` to `new` restores
`old` (as a map). -/
theorem applyEntriesI_diff_endpoint {α : Type} [DecidableEq α] (old new : RecMap α)
    (ho : (recKeys old).Nodup) (hn : (recKeys new).Nodup) :
    recEquiv (applyEntriesI new (diffRec old new (keysUnion (recKeys old) (recKeys new)))) old := by
  intro k
  have hks : (keysUnion (recKeys old) (recKeys new)).Nodup := keysUnion_nodup ho hn
  have hes : (recKeys (diffRec old new (keysUnion (recKeys old) (recKeys new)))).Nodup :=
    List.Nodup.sublist (diffRec_keys_sublist old new _) hks
  rw [recLookup_applyEntriesI _ hes]
  by_cases hk : k ∈ keysUnion (recKeys old) (recKeys new)
  · rw [diffRec_lookup_mem old new _ k hk]
    cases hol : recLookup old k <;> cases hnl : recLookup new k
    · simp [entryI, hol, hnl]
    · simp [entryI, hol, hnl]
    · simp [entryI, hol, hnl]
    · rename_i ov nv
      by_cases he : ov = nv
      · simp [entryI, hol, hnl, he]
      · simp [entryI, hol, hnl, he]
  · have hko : k ∉ recKeys old := fun hm => hk (mem_keysUnion.mpr (Or.inl hm))
    have hkn : k ∉ recKeys new := fun hm => hk (mem_keysUnion.mpr (Or.inr hm))
    rw [diffRec_lookup_not_mem old new _ k hk]
    simp [recLookup_eq_none_of_not_mem _ _ hko, recLookup_eq_none_of_not_mem _ _ hkn]

/-- `applyPatch(A, diff(A, B))` is `B`. -/
theorem applyPatch_diff (A B : SState)
    (hA1 : (recKeys A.nodes).Nodup) (hA2 : (recKeys A.connections).Nodup)
    (hB1 : (recKeys B.nodes).Nodup) (hB2 : (recKeys B.connections).Nodup) :
    sstateEquiv (applyPatch A (diff A B)) B := by
  refine ⟨applyEntriesF_diff_endpoint A.nodes B.nodes hA1 hB1,
    applyEntriesF_diff_endpoint A.connections B.connections hA2 hB2, ?_⟩
  by_cases hv : A.metadata.viewport = B.metadata.viewport
  · simp [applyPatch, diff, hv]
  · simp [applyPatch, diff, hv]

/-- `applyInversePatch(B, diff(A, B))` is `A`. -/
theorem applyInversePatch_diff (A B : SState)
    (hA1 : (recKeys A.nodes).Nodup) (hA2 : (recKeys A.connections).Nodup)
    (hB1 : (recKeys B.nodes).Nodup) (hB2 : (recKeys B.connections).Nodup) :
    sstateEquiv (applyInversePatch B (diff A B)) A := by
  refine ⟨applyEntriesI_diff_endpoint A.nodes B.nodes hA1 hB1,
    applyEntriesI_diff_endpoint A.connections B.connections hA2 hB2, ?_⟩
  by_cases hv : A.metadata.viewport = B.metadata.viewport
  · simp [applyInversePatch, diff, hv]
  · simp [applyInversePatch, diff, hv]

theorem applyEntryF_congr {α : Type} {a b : RecMap α} (h : recEquiv a b)
    (id : String) (e : DeltaEntry α) :
    recEquiv (applyEntryF a id e) (applyEntryF b id e) := by
  intro k
  by_cases hk : k = id
  · subst hk
    rw [recLookup_applyEntryF_self, recLookup_applyEntryF_self, h k]
  · rw [recLookup_applyEntryF_ne _ _ _ _ hk, recLookup_applyEntryF_ne _ _ _ _ hk]
    exact h k

theorem applyEntryI_congr {α : Type} {a b : RecMap α} (h : recEquiv a b)
    (id : String) (e : DeltaEntry α) :
    recEquiv (applyEntryI a id e) (applyEntryI b id e) := by
  intro k
  by_cases hk : k = id
  · subst hk
    rw [recLookup_applyEntryI_self, recLookup_applyEntryI_self, h k]
  · rw [recLookup_applyEntryI_ne _ _ _ _ hk, recLookup_applyEntryI_ne _ _ _ _ hk]
    exact h k

theorem applyEntriesF_congr {α : Type} (es : RecMap (DeltaEntry α))
    {a b : RecMap α} (h : recEquiv a b) :
    recEquiv (applyEntriesF a es) (applyEntriesF b es) := by
  induction es generalizing a b with
  | nil => exact h
  | cons kv rest ih =>
      simpa [applyEntriesF] using ih (applyEntryF_congr h kv.1 kv.2)

theorem applyEntriesI_congr {α : Type} (es : RecMap (DeltaEntry α))
    {a b : RecMap α} (h : recEquiv a b) :
    recEquiv (applyEntriesI a es) (applyEntriesI b es) := by
  induction es generalizing a b with
  | nil => exact h
  | cons kv rest ih =>
      simpa [applyEntriesI] using ih (applyEntryI_congr h kv.1 kv.2)

theorem applyPatch_congr {a b : SState} (D : StateDelta) (h : sstateEquiv a b) :
    sstateEquiv (applyPatch a D) (applyPatch b D) := by
  refine ⟨applyEntriesF_congr D.nodes h.1, applyEntriesF_congr D.connections h.2.1, ?_⟩
  cases hv : D.viewport with
  | none => simpa [applyPatch, hv] using h.2.2
  | some e =>
      cases hn : e.new with
      | none => simpa [applyPatch, hv, hn] using h.2.2
      | some v => simp [applyPatch, hv, hn]

/-! ### Counterexample fixtures for the patch algebra over arbitrary states -/

def c2NodeRec (lbl : String) : SNode :=
  { id := "n", type := "t", label := lbl, note := "", data := [],
    position := ⟨0, 0⟩, style := [], handles := [] }

def c2Meta : Metadata := { version := "1.0.0", createdAt := "t", viewport := ⟨1, 0, 0⟩ }

def c2A : SState :=
  { metadata := c2Meta, nodes := [("n", c2NodeRec "a")], connections := [], notes := [] }

def c2B : SState :=
  { metadata := c2Meta, nodes := [("n", c2NodeRec "b")], connections := [], notes := [] }

def c2S : SState :=
  { metadata := c2Meta, nodes := [], connections := [], notes := [] }

/-- C2, counterexample to the claim as stated: the delta `diff(c2A, c2B)`
(a modification of node "n") applied around an unrelated state `c2S` that
lacks "n" materializes the node, so
`applyPatch(applyInversePatch(S, D), D)` is not `S` for every serialized
state `S` — the identities only hold at the diff's own endpoints. -/
theorem C2_counterexample_patch_roundtrip_not_universal :
    ¬ sstateEquiv (applyPatch (applyInversePatch c2S (diff c2A c2B)) (diff c2A c2B)) c2S :=
  fun h => absurd (h.1 "n") (by decide)

/-- C2 (amended): for every delta `D = diff(A, B)` produced by diff on
well-formed states (duplicate-free id keys), `applyPatch(A, D)` is `B` and
`applyInversePatch(B, D)` is `A`; consequently
`applyPatch(applyInversePatch(S, D), D) = S` holds at `S = B` and
`applyInversePatch(applyPatch(S, D), D) = S` holds at `S = A` (equality of
snapshots: the id-keyed sections as maps, and the viewport). -/
theorem C2_patch_inverse_algebra (A B : SState) (D : StateDelta)
    (hA1 : (recKeys A.nodes).Nodup) (hA2 : (recKeys A.connections).Nodup)
    (hB1 : (recKeys B.nodes).Nodup) (hB2 : (recKeys B.connections).Nodup)
    (hD : D = diff A B) :
    sstateEquiv (applyPatch A D) B ∧
    sstateEquiv (applyInversePatch B D) A ∧
    sstateEquiv (applyPatch (applyInversePatch B D) D) B ∧
    sstateEquiv (applyInversePatch (applyPatch A D) D) A := by
  subst hD
  have h1 := applyPatch_diff A B hA1 hA2 hB1 hB2
  have h2 := applyInversePatch_diff A B hA1 hA2 hB1 hB2
  refine ⟨h1, h2, ?_, ?_⟩
  · exact sstateEquiv_trans (applyPatch_congr (diff A B) h2) h1
  · -- applyPatch A D is B as a map; rebuilding A from it needs the
    -- inverse-endpoint lemma transported along the equivalence.
    have h3 : sstateEquiv (applyInversePatch (applyPatch A (diff A B)) (diff A B))
        (applyInversePatch B (diff A B)) := by
      refine ⟨applyEntriesI_congr _ h1.1, applyEntriesI_congr _ h1.2.1, ?_⟩
      cases hv : (diff A B).viewport with
      | none => simpa [applyInversePatch, hv] using h1.2.2
      | some e =>
          cases hn : e.old with
          | none => simpa [applyInversePatch, hv, hn] using h1.2.2
          | some v => simp [applyInversePatch, hv, hn]
    exact sstateEquiv_trans h3 h2

/-- C2 witness: the amended algebra at a concrete modified-node delta. -/
theorem C2_witness :
    (recKeys c2A.nodes).Nodup ∧
    (sstateEquiv (applyPatch c2A (diff c2A c2B)) c2B ∧
      sstateEquiv (applyInversePatch c2B (diff c2A c2B)) c2A ∧
      sstateEquiv (applyPatch (applyInversePatch c2B (diff c2A c2B)) (diff c2A c2B)) c2B ∧
      sstateEquiv (applyInversePatch (applyPatch c2A (diff c2A c2B)) (diff c2A c2B)) c2A) :=
  ⟨by decide,
    C2_patch_inverse_algebra c2A c2B (diff c2A c2B) (by decide) (by decide)
      (by decide) (by decide) rfl⟩

/-! ### Bounded-depth undo -/

/-- Did the previous save establish a baseline and would this one produce a
non-empty delta? -/
def stepNonEmpty (hm : HM) (s : SState) : Bool :=
  match hm.headState with
  | some h => !(isEmptyPatch (diff h s))
  | none => false

/-- Every save of the sequence takes the non-empty-diff branch. -/
def allNonEmpty : HM → List SState → Bool
  | _, [] => true
  | hm, s :: ss => stepNonEmpty hm s && allNonEmpty (HM.save hm s).1 ss

/-- Run a sequence of saves. -/
def saveChain : HM → List SState → HM
  | hm, [] => hm
  | hm, s :: ss => saveChain (HM.save hm s).1 ss

/-- Calling `undo()` repeatedly until it returns false: the number of
successful restorations.  Each successful undo pops one delta, so the stack
depth bounds the recursion. -/
def undoRunFuel : Nat → HM → Nat
  | 0, _ => 0
  | fuel + 1, hm =>
      let r := HM.undo hm
      if r.2 then undoRunFuel fuel r.1 + 1 else 0

def undoRun (hm : HM) : Nat := undoRunFuel hm.undoStack.length hm

theorem save_nonempty_shape (hm : HM) (h S : SState)
    (hh : hm.headState = some h) (hne : isEmptyPatch (diff h S) = false)
    (hlen : hm.undoStack.length ≤ hm.maxDepth) :
    (HM.save hm S).1.undoStack.length = min (hm.undoStack.length + 1) hm.maxDepth ∧
    (HM.save hm S).1.headState = some S ∧
    (HM.save hm S).1.maxDepth = hm.maxDepth := by
  by_cases hgt : hm.undoStack.length + 1 > hm.maxDepth
  · refine ⟨?_, by simp [HM.save, hh, hne], by simp [HM.save, hh, hne]⟩
    simp [HM.save, hh, hne, hgt]
    omega
  · refine ⟨?_, by simp [HM.save, hh, hne], by simp [HM.save, hh, hne]⟩
    simp [HM.save, hh, hne, hgt]
    omega

theorem saveChain_shape (ss : List SState) (hm : HM)
    (hne : allNonEmpty hm ss = true) (hlen : hm.undoStack.length ≤ hm.maxDepth) :
    (saveChain hm ss).undoStack.length = min (hm.undoStack.length + ss.length) hm.maxDepth ∧
    (saveChain hm ss).maxDepth = hm.maxDepth ∧
    (ss ≠ [] → (saveChain hm ss).headState.isSome) := by
  induction ss generalizing hm with
  | nil =>
      refine ⟨?_, rfl, by simp [saveChain]⟩
      simp [saveChain]
      omega
  | cons s rest ih =>
      simp only [allNonEmpty, Bool.and_eq_true] at hne
      obtain ⟨hstep, hrest⟩ := hne
      obtain ⟨h, hh⟩ : ∃ h, hm.headState = some h := by
        cases hhs : hm.headState with
        | none => rw [stepNonEmpty, hhs] at hstep; cases hstep
        | some h => exact ⟨h, rfl⟩
      have hdne : isEmptyPatch (diff h s) = false := by
        rw [stepNonEmpty, hh] at hstep
        simpa using hstep
      obtain ⟨hl1, hh1, hd1⟩ := save_nonempty_shape hm h s hh hdne hlen
      have hlen1 : (HM.save hm s).1.undoStack.length ≤ (HM.save hm s).1.maxDepth := by
        rw [hl1, hd1]
        omega
      obtain ⟨ihl, ihd, ihh⟩ := ih (HM.save hm s).1 hrest hlen1
      refine ⟨?_, by rw [saveChain, ihd, hd1], ?_⟩
      · rw [saveChain, ihl, hl1, hd1]
        simp [Nat.min_def]
        split_ifs <;> omega
      · intro _
        by_cases hrest2 : rest = []
        · subst hrest2
          simp [saveChain, hh1]
        · exact ihh hrest2

theorem undo_success (hm : HM) (hs : hm.undoStack ≠ [])
    (hh : hm.headState.isSome) :
    (HM.undo hm).2 = true ∧
    (HM.undo hm).1.undoStack = hm.undoStack.dropLast ∧
    (HM.undo hm).1.headState.isSome := by
  obtain ⟨d, hd⟩ : ∃ d, hm.undoStack.getLast? = some d := by
    cases hlast : hm.undoStack.getLast? with
    | none => exact absurd (List.getLast?_eq_none_iff.mp hlast) hs
    | some d => exact ⟨d, rfl⟩
  obtain ⟨h, hhd⟩ : ∃ h, hm.headState = some h := by
    cases hhs : hm.headState with
    | none => rw [hhs] at hh; cases hh
    | some h => exact ⟨h, rfl⟩
  simp [HM.undo, hd, hhd]

theorem undoRunFuel_eq_length (n : Nat) :
    ∀ hm : HM, hm.headState.isSome → hm.undoStack.length = n →
      undoRunFuel n hm = n := by
  induction n with
  | zero => intro hm _ _; rfl
  | succ n ih =>
      intro hm hh hlen
      have hs : hm.undoStack ≠ [] := by
        intro he
        rw [he] at hlen
        cases hlen
      obtain ⟨ht, hst, hh'⟩ := undo_success hm hs hh
      have hlen' : (HM.undo hm).1.undoStack.length = n := by
        rw [hst, List.length_dropLast, hlen]
        omega
      rw [undoRunFuel]
      simp only [ht, if_true]
      rw [ih (HM.undo hm).1 hh' hlen']

/-- C7: starting from an empty undo stack, after a sequence of more than
maxDepth saves each of which produced a non-empty diff, repeated `undo()`
until it returns false performs exactly maxDepth successful restorations,
never more. -/
theorem C7_bounded_depth (hm : HM) (ss : List SState)
    (hstart : hm.undoStack = [])
    (hne : allNonEmpty hm ss = true)
    (hcount : hm.maxDepth < ss.length) :
    undoRun (saveChain hm ss) = hm.maxDepth := by
  have hlen0 : hm.undoStack.length ≤ hm.maxDepth := by simp [hstart]
  obtain ⟨hl, hd, hh⟩ := saveChain_shape ss hm hne hlen0
  have hss : ss ≠ [] := by
    intro he
    rw [he] at hcount
    simp at hcount
  have hlfin : (saveChain hm ss).undoStack.length = hm.maxDepth := by
    rw [hl, hstart]
    simp
    omega
  rw [undoRun, hlfin]
  exact undoRunFuel_eq_length hm.maxDepth (saveChain hm ss) (hh hss) hlfin

/-- Example states differing from `exState` only in the viewport. -/
def exStateB : GraphState := { exState with transform := ⟨2, 0, 0⟩ }

def exStateC : GraphState := { exState with transform := ⟨3, 0, 0⟩ }

/-- A fresh manager with a baseline and maxDepth 1. -/
def exHM1 : HM :=
  { undoStack := [], redoStack := [], headState := some (serialize "t0" exState)
    maxDepth := 1 }

/-- C7 witness: two non-empty saves against maxDepth 1 leave exactly one
successful undo. -/
theorem C7_witness :
    exHM1.undoStack = [] ∧
    allNonEmpty exHM1 [serialize "t1" exStateB, serialize "t2" exStateC] = true ∧
    undoRun (saveChain exHM1 [serialize "t1" exStateB, serialize "t2" exStateC]) = 1 :=
  ⟨rfl, by decide,
    C7_bounded_depth exHM1 [serialize "t1" exStateB, serialize "t2" exStateC]
      rfl (by decide) (by decide)⟩

/-! ### Deserialization: characterizations of the skip/orphan reporting -/

theorem deserializeNode_eq_none_iff (reg : Registry) (nd : SNode) :
    deserializeNode reg nd = none ↔ reg.getNodeDefinition nd.type = none := by
  cases h : reg.getNodeDefinition nd.type <;> simp [deserializeNode, h]

theorem deserializeNode_id (reg : Registry) (nd : SNode) (n : Node)
    (h : deserializeNode reg nd = some n) : n.id = nd.id := by
  cases hd : reg.getNodeDefinition nd.type with
  | none => rw [deserializeNode, hd] at h; cases h
  | some d =>
      rw [deserializeNode, hd] at h
      simp at h
      rw [← h]

theorem deserializeConn_eq_none_iff (reg : Registry) (nodes : List Node)
    (cd : SConnection) :
    deserializeConn reg nodes cd = none ↔
      (reg.hasConnectionType cd.type = false ∨
        handlerExists cd.sourceHandlerId nodes = false ∨
        handlerExists cd.targetHandlerId nodes = false) := by
  by_cases h1 : reg.hasConnectionType cd.type = false
  · simp [deserializeConn, h1]
  · by_cases h2 : handlerExists cd.sourceHandlerId nodes = false
    · simp [deserializeConn, h1, h2]
    · by_cases h3 : handlerExists cd.targetHandlerId nodes = false
      · simp [deserializeConn, h1, h2, h3]
      · simp [deserializeConn, h1, h2, h3]

theorem deserializeConn_id (reg : Registry) (nodes : List Node)
    (cd : SConnection) (c : Connection)
    (h : deserializeConn reg nodes cd = some c) : c.id = cd.id := by
  by_cases h1 : reg.hasConnectionType cd.type = false
  · rw [deserializeConn, if_pos h1] at h; cases h
  · by_cases h2 : handlerExists cd.sourceHandlerId nodes = false
    · rw [deserializeConn, if_neg (by simp [h1]), if_pos h2] at h; cases h
    · by_cases h3 : handlerExists cd.targetHandlerId nodes = false
      · rw [deserializeConn, if_neg (by simp [h1]), if_neg (by simp [h2]), if_pos h3] at h
        cases h
      · rw [deserializeConn, if_neg (by simp [h1]), if_neg (by simp [h2]),
          if_neg (by simp [h3])] at h
        simp at h
        rw [← h]

/-- The node phase loads exactly the records whose plugin type resolves, in
order, and reports the ids of the others. -/
theorem deserializeNodesList_spec (reg : Registry) (l : List SNode) :
    deserializeNodesList reg l =
      (l.filterMap (deserializeNode reg),
        (l.filter (fun nd => (deserializeNode reg nd).isNone)).map SNode.id) := by
  induction l with
  | nil => rfl
  | cons nd rest ih =>
      cases h : deserializeNode reg nd <;>
        simp [deserializeNodesList, h, ih, List.filterMap_cons, List.filter_cons]

/-- The connection phase loads exactly the records with a registered type
and both endpoints resolved, in order, and reports the ids of the others. -/
theorem deserializeConnsList_spec (reg : Registry) (nodes : List Node)
    (l : List SConnection) :
    deserializeConnsList reg nodes l =
      (l.filterMap (deserializeConn reg nodes),
        (l.filter (fun cd => (deserializeConn reg nodes cd).isNone)).map SConnection.id) := by
  induction l with
  | nil => rfl
  | cons cd rest ih =>
      cases h : deserializeConn reg nodes cd <;>
        simp [deserializeConnsList, h, ih, List.filterMap_cons, List.filter_cons]

/-- C5: deserialization surfaces a hard error exactly on a structurally
malformed top-level document (missing metadata/nodes/connections section);
on any other document it succeeds, an unregistered-type node is absent from
the result with its id in the skipped list, a connection with an
unregistered type or an unresolved endpoint is absent with its id in the
orphan list, and every entity that individually deserializes is loaded. -/
theorem C5_failure_semantics (reg : Registry) (d : RawDoc) (st : GraphState)
    (skipped orphans : List String)
    (hout : deserializeRaw reg d = Except.ok (st, skipped, orphans)) :
    (∀ d' : RawDoc, (d'.metadata = none ∨ d'.nodes = none ∨ d'.connections = none) →
        deserializeRaw reg d' = Except.error "Failed to deserialize graph state") ∧
    (d.metadata ≠ none ∧ d.nodes ≠ none ∧ d.connections ≠ none) ∧
    (∀ nd ∈ recValues (d.nodes.getD []),
        reg.getNodeDefinition nd.type = none →
          nd.id ∈ skipped ∧
            (((recValues (d.nodes.getD [])).map SNode.id).Nodup →
              ∀ n ∈ st.nodes, n.id ≠ nd.id)) ∧
    (∀ nd ∈ recValues (d.nodes.getD []), ∀ n : Node,
        deserializeNode reg nd = some n → n ∈ st.nodes) ∧
    (∀ cd ∈ recValues (d.connections.getD []),
        (reg.hasConnectionType cd.type = false ∨
          handlerExists cd.sourceHandlerId st.nodes = false ∨
          handlerExists cd.targetHandlerId st.nodes = false) →
          cd.id ∈ orphans ∧
            (((recValues (d.connections.getD [])).map SConnection.id).Nodup →
              ∀ c ∈ st.links, c.id ≠ cd.id)) ∧
    (∀ cd ∈ recValues (d.connections.getD []), ∀ c : Connection,
        deserializeConn reg st.nodes cd = some c → c ∈ st.links) := by
  obtain ⟨md, hmd⟩ : ∃ md, d.metadata = some md := by
    cases h : d.metadata with
    | none => rw [deserializeRaw, h] at hout; cases hout
    | some md => exact ⟨md, rfl⟩
  obtain ⟨nds, hnds⟩ : ∃ nds, d.nodes = some nds := by
    cases h : d.nodes with
    | none => rw [deserializeRaw, hmd, h] at hout; cases hout
    | some nds => exact ⟨nds, rfl⟩
  obtain ⟨cns, hcns⟩ : ∃ cns, d.connections = some cns := by
    cases h : d.connections with
    | none => rw [deserializeRaw, hmd, hnds, h] at hout; cases hout
    | some cns => exact ⟨cns, rfl⟩
  rw [deserializeRaw, hmd, hnds, hcns] at hout
  simp only [Except.ok.injEq, Prod.mk.injEq] at hout
  obtain ⟨hst, hskip, horph⟩ := hout
  have hnodes : st.nodes = (recValues nds).filterMap (deserializeNode reg) := by
    rw [← hst, deserializeNodesList_spec]
  have hlinks : st.links =
      (recValues cns).filterMap (deserializeConn reg st.nodes) := by
    have h1 : (deserializeNodesList reg (recValues nds)).1 = st.nodes := by
      rw [deserializeNodesList_spec, hnodes]
    rw [← hst]
    rw [h1, deserializeConnsList_spec]
  have hskipped : skipped =
      ((recValues nds).filter (fun nd => (deserializeNode reg nd).isNone)).map SNode.id := by
    rw [← hskip, deserializeNodesList_spec]
  have horphans : orphans =
      ((recValues cns).filter (fun cd => (deserializeConn reg st.nodes cd).isNone)).map
        SConnection.id := by
    have h1 : (deserializeNodesList reg (recValues nds)).1 = st.nodes := by
      rw [deserializeNodesList_spec, hnodes]
    rw [← horph, h1, deserializeConnsList_spec]
  refine ⟨?_, ⟨by simp [hmd], by simp [hnds], by simp [hcns]⟩, ?_, ?_, ?_, ?_⟩
  · rintro d' (h | h | h)
    · rw [deserializeRaw, h]
    · rw [deserializeRaw, h]
      cases d'.metadata <;> rfl
    · rw [deserializeRaw, h]
      cases d'.metadata <;> cases d'.nodes <;> rfl
  · rw [hnds, Option.getD_some]
    intro nd hmem hdef
    constructor
    · rw [hskipped]
      refine List.mem_map.mpr ⟨nd, List.mem_filter.mpr ⟨hmem, ?_⟩, rfl⟩
      simp [(deserializeNode_eq_none_iff reg nd).mpr hdef]
    · intro hnodup n hn he
      rw [hnodes] at hn
      obtain ⟨nd2, hnd2, hsome⟩ := List.mem_filterMap.mp hn
      have hid2 : n.id = nd2.id := deserializeNode_id reg nd2 n hsome
      have hinj := List.inj_on_of_nodup_map (f := SNode.id) (l := recValues nds) hnodup
      have : nd2 = nd := by
        apply hinj hnd2 hmem
        rw [← hid2, he]
      rw [this] at hsome
      rw [(deserializeNode_eq_none_iff reg nd).mpr hdef] at hsome
      cases hsome
  · intro nd hmem n hsome
    rw [hnds] at hmem
    rw [hnodes]
    exact List.mem_filterMap.mpr ⟨nd, hmem, hsome⟩
  · rw [hcns, Option.getD_some]
    intro cd hmem hbad
    have hnone : deserializeConn reg st.nodes cd = none :=
      (deserializeConn_eq_none_iff reg st.nodes cd).mpr hbad
    constructor
    · rw [horphans]
      refine List.mem_map.mpr ⟨cd, List.mem_filter.mpr ⟨hmem, ?_⟩, rfl⟩
      simp [hnone]
    · intro hnodup c hc he
      rw [hlinks] at hc
      obtain ⟨cd2, hcd2, hsome⟩ := List.mem_filterMap.mp hc
      have hid2 : c.id = cd2.id := deserializeConn_id reg st.nodes cd2 c hsome
      have hinj := List.inj_on_of_nodup_map (f := SConnection.id) (l := recValues cns) hnodup
      have : cd2 = cd := by
        apply hinj hcd2 hmem
        rw [← hid2, he]
      rw [this] at hsome
      rw [hnone] at hsome
      cases hsome
  · intro cd hmem c hsome
    rw [hcns] at hmem
    rw [hlinks]
    exact List.mem_filterMap.mpr ⟨cd, hmem, hsome⟩

/-- A node record with an unregistered plugin type. -/
def exBadNodeRec : SNode :=
  { id := "nbad", type := "mystery", label := "", note := "", data := [],
    position := ⟨0, 0⟩, style := [], handles := [] }

/-- A connection record whose target handler resolves to no node. -/
def exOrphanRec : SConnection :=
  { id := "corph", type := "default", sourceHandlerId := "hB",
    targetHandlerId := "nope", pathType := .bezier, style := [], label := none,
    data := [] }

def exRawDoc : RawDoc :=
  { metadata := some { version := "1.0.0", createdAt := "t", viewport := ⟨1, 0, 0⟩ }
    nodes := some (recSet (serializeNodes [exNode]) "nbad" exBadNodeRec)
    connections := some (recSet (serializeConnections [exConn]) "corph" exOrphanRec)
    notes := none }

def exTripleDefault : GraphState × List String × List String :=
  ({ nodes := [], links := [], notes := [], transform := ⟨1, 0, 0⟩ }, [], [])

def exParsedTriple : GraphState × List String × List String :=
  ((deserializeRaw exRegistry exRawDoc).toOption).getD exTripleDefault

/-- C5 witness: a mixed document loads, reporting the unregistered node and
the orphaned connection while the rest is kept. -/
theorem C5_witness :
    deserializeRaw exRegistry exRawDoc = Except.ok exParsedTriple ∧
    "nbad" ∈ exParsedTriple.2.1 ∧ "corph" ∈ exParsedTriple.2.2 :=
  ⟨rfl,
    ((C5_failure_semantics exRegistry exRawDoc exParsedTriple.1 exParsedTriple.2.1
        exParsedTriple.2.2 rfl).2.2.1 exBadNodeRec (by decide) (by decide)).1,
    ((C5_failure_semantics exRegistry exRawDoc exParsedTriple.1 exParsedTriple.2.1
        exParsedTriple.2.2 rfl).2.2.2.2.1 exOrphanRec (by decide) (by decide)).1⟩

/-! ### Frame effect of handler-ID restoration -/

/-- Rewrite the handler records nested in a serialized node. -/
def mapNodeHandles (g : SHandler → SHandler) (nd : SNode) : SNode :=
  { nd with handles := nd.handles.map (fun kv => (kv.1, g kv.2)) }

/-- The construction-determined part of a handler: everything except its id
and label. -/
def handlerShape (h : Handler) :
    String × FlowType × Position × Direction × Dimensions × String :=
  (h.type, h.flow, h.offset, h.direction, h.dims, h.role)

def specShape (s : HandlerSpec) :
    String × FlowType × Position × Direction × Dimensions × String :=
  (s.type, s.flow, s.offset, s.direction, s.dims, s.role)

theorem savedOfType_map (g : SHandler → SHandler)
    (hg : ∀ sh, (g sh).type = sh.type) (l : List SHandler) (t : String) :
    savedOfType (l.map g) t = (savedOfType l t).map g := by
  induction l with
  | nil => rfl
  | cons sh tl ih =>
      by_cases hsh : sh.type = t
      · simp only [savedOfType, List.map_cons, List.filter_cons] at ih ⊢
        simp [hsh, hg sh, ih]
      · simp only [savedOfType, List.map_cons, List.filter_cons] at ih ⊢
        simp [hsh, hg sh, ih]

/-- Restoration reads only the id, type and label of the saved handler
records: rewriting their other fields does not change the result. -/
theorem restoreHandlerIds_map_presentation (g : SHandler → SHandler)
    (hg : ∀ sh, (g sh).id = sh.id ∧ (g sh).type = sh.type ∧ (g sh).label = sh.label)
    (saved : List SHandler) (fresh : List Handler) (idx : RecMap Nat) :
    restoreHandlerIds (saved.map g) fresh idx = restoreHandlerIds saved fresh idx := by
  induction fresh generalizing idx with
  | nil => rfl
  | cons h rest ih =>
      rw [restoreHandlerIds, restoreHandlerIds,
        savedOfType_map g (fun sh => (hg sh).2.1) saved h.type, List.get?_map]
      cases hj : (savedOfType saved h.type).get? ((recLookup idx h.type).getD 0) with
      | none => simp [ih]
      | some sh =>
          have hone : restoreOne h (g sh) = restoreOne h sh := by
            unfold restoreOne
            rw [(hg sh).1, (hg sh).2.2]
          simp [hone, ih]

/-- Restoration changes only ids and labels: the shape of every handler is
the shape of the freshly constructed one. -/
theorem restoreHandlerIds_shape (saved : List SHandler) (fresh : List Handler)
    (idx : RecMap Nat) :
    (restoreHandlerIds saved fresh idx).map handlerShape = fresh.map handlerShape := by
  induction fresh generalizing idx with
  | nil => rfl
  | cons h rest ih =>
      rw [restoreHandlerIds]
      cases hj : (savedOfType saved h.type).get? ((recLookup idx h.type).getD 0) with
      | none => simp [hj, ih]
      | some sh => simp [hj, restoreOne, handlerShape, ih]

/-- Fresh construction realizes exactly the definition's handler shapes. -/
theorem freshHandlers_shape (nid : String) (specs : List HandlerSpec) :
    (freshHandlers nid specs).map handlerShape = specs.map specShape := by
  unfold freshHandlers
  rw [List.map_map]
  have h1 : (handlerShape ∘ fun p : Nat × HandlerSpec =>
      ({ id := mintHandlerId nid p.1, type := p.2.type, flow := p.2.flow,
         role := p.2.role, offset := p.2.offset, direction := p.2.direction,
         dims := p.2.dims, label := "" } : Handler)) = specShape ∘ Prod.snd := rfl
  rw [h1, ← List.map_map, List.enum_map_snd]

theorem recValues_map {α : Type} (g : α → α) (m : RecMap α) :
    recValues (m.map (fun kv => (kv.1, g kv.2))) = (recValues m).map g := by
  simp [recValues, List.map_map]

theorem deserializeNode_map_presentation (reg : Registry) (g : SHandler → SHandler)
    (hg : ∀ sh, (g sh).id = sh.id ∧ (g sh).type = sh.type ∧ (g sh).label = sh.label)
    (nd : SNode) :
    deserializeNode reg (mapNodeHandles g nd) = deserializeNode reg nd := by
  unfold deserializeNode mapNodeHandles
  cases hd : reg.getNodeDefinition nd.type with
  | none => simp [hd]
  | some d =>
      simp only [hd]
      rw [recValues_map, restoreHandlerIds_map_presentation g hg]

/-- C10: handler-ID restoration copies only the id and (when non-empty) the
label from each matched saved handler record; a reconstructed handler's
offset, flow and direction (and role, dimensions) come from the plugin
definition's construction; the saved records' offset/flow/direction fields
are never read back, although `serialize` wrote them to the document. -/
theorem C10_restoration_reads_only_id_and_label (reg : Registry)
    (g : SHandler → SHandler)
    (hg : ∀ sh, (g sh).id = sh.id ∧ (g sh).type = sh.type ∧ (g sh).label = sh.label)
    (nds : List SNode) :
    deserializeNodesList reg (nds.map (mapNodeHandles g)) = deserializeNodesList reg nds ∧
    (∀ nd : SNode, ∀ n : Node, deserializeNode reg nd = some n →
      ∃ d, reg.getNodeDefinition nd.type = some d ∧
        n.handlers.map handlerShape = d.handlerSpecs.map specShape) ∧
    (∀ h : Handler, (serializeHandler h).offset = h.offset ∧
      (serializeHandler h).flow = h.flow ∧ (serializeHandler h).direction = h.direction) := by
  refine ⟨?_, ?_, fun h => ⟨rfl, rfl, rfl⟩⟩
  · induction nds with
    | nil => rfl
    | cons nd rest ih =>
        simp only [List.map_cons, deserializeNodesList, ih,
          deserializeNode_map_presentation reg g hg nd]
        cases deserializeNode reg nd <;> rfl
  · intro nd n hsome
    cases hd : reg.getNodeDefinition nd.type with
    | none => rw [deserializeNode, hd] at hsome; cases hsome
    | some d =>
        refine ⟨d, rfl, ?_⟩
        rw [deserializeNode, hd] at hsome
        simp only [Option.some.injEq] at hsome
        rw [← hsome]
        rw [restoreHandlerIds_shape, freshHandlers_shape]

/-- The presentation rewrite used by the C10 witness. -/
def c10g : SHandler → SHandler :=
  fun sh => { sh with offset := ⟨99, 99⟩, flow := .flowAny, direction := .dOmni }

/-- C10 witness: scrambling every saved offset/flow/direction leaves the
deserialized nodes untouched. -/
theorem C10_witness :
    deserializeNodesList exRegistry ([serializeNode exNode].map (mapNodeHandles c10g)) =
      deserializeNodesList exRegistry [serializeNode exNode] ∧
    (∀ nd : SNode, ∀ n : Node, deserializeNode exRegistry nd = some n →
      ∃ d, exRegistry.getNodeDefinition nd.type = some d ∧
        n.handlers.map handlerShape = d.handlerSpecs.map specShape) ∧
    (∀ h : Handler, (serializeHandler h).offset = h.offset ∧
      (serializeHandler h).flow = h.flow ∧ (serializeHandler h).direction = h.direction) :=
  C10_restoration_reads_only_id_and_label exRegistry c10g
    (fun _ => ⟨rfl, rfl, rfl⟩) [serializeNode exNode]

/-! ### Cascade delete -/

/-- Is the connection incident to one of the node's handlers? -/
def incident (n : Node) (l : Connection) : Bool :=
  ownsHandler n l.sourceHandlerId || ownsHandler n l.targetHandlerId

/-- The spec invariant behind the node-to-links cache: no two nodes of the
store share a handler id. -/
abbrev nodesHandlersDisjoint (nodes : List Node) : Prop :=
  nodes.Pairwise (fun a b => ∀ h ∈ a.handlers, ownsHandler b h.id = false)

theorem ownsHandler_iff (n : Node) (hid : String) :
    ownsHandler n hid = true ↔ ∃ h ∈ n.handlers, h.id = hid := by
  simp [ownsHandler]

/-- Under the disjointness invariant, the first owner found for one of
`n`'s handler ids is `n` itself. -/
theorem findNodeByHandlerId_owner (nodes : List Node) (n : Node) (hid : String)
    (hdisj : nodesHandlersDisjoint nodes) (hmem : n ∈ nodes)
    (hown : ownsHandler n hid = true) :
    findNodeByHandlerId nodes hid = some n := by
  induction nodes with
  | nil => cases hmem
  | cons a t ih =>
      rw [nodesHandlersDisjoint, List.pairwise_cons] at hdisj
      rcases List.mem_cons.mp hmem with rfl | hmem'
      · simp [findNodeByHandlerId, List.find?_cons, hown]
      · cases hcond : ownsHandler a hid with
        | true =>
            obtain ⟨h, hh, hhid⟩ := (ownsHandler_iff a hid).mp hcond
            have := hdisj.1 n hmem' h hh
            rw [hhid] at this
            rw [this] at hown
            cases hown
        | false =>
            rw [findNodeByHandlerId] at ih ⊢
            rw [List.find?_cons, hcond]
            exact ih hdisj.2 hmem'

/-- A found owner whose handler `n` does not own has a different id. -/
theorem findNodeByHandlerId_ne (nodes : List Node) (n b : Node) (hid : String)
    (hnids : (nodes.map Node.id).Nodup) (hn : n ∈ nodes)
    (hb : findNodeByHandlerId nodes hid = some b)
    (hnown : ownsHandler n hid = false) : b.id ≠ n.id := by
  intro he
  have hbmem : b ∈ nodes := List.mem_of_find?_eq_some hb
  have hbown : ownsHandler b hid = true := by
    have := List.find?_some hb
    simpa using this
  have : b = n := List.inj_on_of_nodup_map (f := Node.id) hnids hbmem hn he
  rw [this, hnown] at hbown
  cases hbown

/-- Setting another node's bucket leaves `n`'s bucket unchanged. -/
theorem recLookup_set_other (m : RecMap (List Connection)) (b : Node) (n : Node)
    (v : List Connection) (hne : b.id ≠ n.id) :
    recLookup (recSet m b.id v) n.id = recLookup m n.id :=
  recLookup_recSet_ne m b.id n.id v (Ne.symm hne)

/-- One cache-rebuild step, seen from node `n`: appends the link to `n`'s
bucket exactly when the link is incident to `n`, and touches no other
bucket of `n`. -/
theorem nodeToLinksStep_lookup (nodes : List Node) (n : Node)
    (hdisj : nodesHandlersDisjoint nodes) (hnids : (nodes.map Node.id).Nodup)
    (hmem : n ∈ nodes) (m : RecMap (List Connection)) (l : Connection) :
    (recLookup (nodeToLinksStep nodes m l) n.id).getD [] =
      (recLookup m n.id).getD [] ++ (if incident n l then [l] else []) := by
  cases hs : ownsHandler n l.sourceHandlerId with
  | true =>
      have hsrc : findNodeByHandlerId nodes l.sourceHandlerId = some n :=
        findNodeByHandlerId_owner nodes n _ hdisj hmem hs
      cases ht : ownsHandler n l.targetHandlerId with
      | true =>
          have htgt : findNodeByHandlerId nodes l.targetHandlerId = some n :=
            findNodeByHandlerId_owner nodes n _ hdisj hmem ht
          simp [nodeToLinksStep, hsrc, htgt, incident, hs, ht]
      | false =>
          cases htgt : findNodeByHandlerId nodes l.targetHandlerId with
          | none => simp [nodeToLinksStep, hsrc, htgt, incident, hs]
          | some b =>
              have hne : b.id ≠ n.id :=
                findNodeByHandlerId_ne nodes n b _ hnids hmem htgt ht
              rw [nodeToLinksStep]
              simp only [hsrc, htgt, Option.map_some]
              rw [if_pos (by simp [Ne.symm hne])]
              rw [recLookup_set_other _ b n _ hne, recLookup_recSet_self]
              simp [incident, hs]
  | false =>
      cases ht : ownsHandler n l.targetHandlerId with
      | true =>
          have htgt : findNodeByHandlerId nodes l.targetHandlerId = some n :=
            findNodeByHandlerId_owner nodes n _ hdisj hmem ht
          cases hsrc : findNodeByHandlerId nodes l.sourceHandlerId with
          | none =>
              rw [nodeToLinksStep]
              simp only [hsrc, htgt, Option.map_none]
              rw [if_pos (by simp)]
              rw [recLookup_recSet_self]
              simp [incident, hs, ht]
          | some a =>
              have hane : a.id ≠ n.id :=
                findNodeByHandlerId_ne nodes n a _ hnids hmem hsrc hs
              rw [nodeToLinksStep]
              simp only [hsrc, htgt, Option.map_some]
              rw [if_pos (by simp [hane])]
              rw [recLookup_recSet_self, recLookup_set_other _ a n _ hane]
              simp [incident, hs, ht]
      | false =>
          have hfin : incident n l = false := by simp [incident, hs, ht]
          cases hsrc : findNodeByHandlerId nodes l.sourceHandlerId with
          | none =>
              cases htgt : findNodeByHandlerId nodes l.targetHandlerId with
              | none => simp [nodeToLinksStep, hsrc, htgt, hfin]
              | some b =>
                  have hbne : b.id ≠ n.id :=
                    findNodeByHandlerId_ne nodes n b _ hnids hmem htgt ht
                  rw [nodeToLinksStep]
                  simp only [hsrc, htgt, Option.map_none]
                  rw [if_pos (by simp)]
                  rw [recLookup_set_other _ b n _ hbne]
                  simp [hfin]
          | some a =>
              have hane : a.id ≠ n.id :=
                findNodeByHandlerId_ne nodes n a _ hnids hmem hsrc hs
              cases htgt : findNodeByHandlerId nodes l.targetHandlerId with
              | none =>
                  rw [nodeToLinksStep]
                  simp only [hsrc, htgt, Option.map_some]
                  rw [recLookup_set_other _ a n _ hane]
                  simp [hfin]
              | some b =>
                  have hbne : b.id ≠ n.id :=
                    findNodeByHandlerId_ne nodes n b _ hnids hmem htgt ht
                  rw [nodeToLinksStep]
                  simp only [hsrc, htgt, Option.map_some]
                  by_cases hab : a.id = b.id
                  · rw [if_neg (by simp [hab])]
                    rw [recLookup_set_other _ a n _ hane]
                    simp [hfin]
                  · rw [if_pos (by simp; exact hab)]
                    rw [recLookup_set_other _ b n _ hbne,
                      recLookup_set_other _ a n _ hane]
                    simp [hfin]

/-- The rebuilt node-to-links bucket of a node is exactly the incident
links, in order. -/
theorem rebuildNodeToLinksCache_lookup (s : GraphState) (n : Node)
    (hdisj : nodesHandlersDisjoint s.nodes) (hnids : (s.nodes.map Node.id).Nodup)
    (hmem : n ∈ s.nodes) :
    (recLookup (rebuildNodeToLinksCache s) n.id).getD [] =
      s.links.filter (incident n) := by
  have main : ∀ (ls : List Connection) (m : RecMap (List Connection)),
      (recLookup (ls.foldl (nodeToLinksStep s.nodes) m) n.id).getD [] =
        (recLookup m n.id).getD [] ++ ls.filter (incident n) := by
    intro ls
    induction ls with
    | nil => simp
    | cons l rest ih =>
        intro m
        rw [List.foldl_cons, ih, nodeToLinksStep_lookup s.nodes n hdisj hnids hmem,
          List.filter_cons]
        cases hi : incident n l <;> simp [hi]

  rw [rebuildNodeToLinksCache, main]
  simp [recLookup]

/-- What one `removeLink(l.id)` call does to the links collection. -/
def stripStep (ls : List Connection) (y : Connection) : List Connection :=
  if ls.any (fun l => l.id = y.id) then removeFirstLink ls y.id else ls

theorem removeLink_components (st : Store) (id : String) :
    (Store.removeLink st id).1.state.nodes = st.state.nodes ∧
    (Store.removeLink st id).1.state.notes = st.state.notes ∧
    (Store.removeLink st id).1.state.transform = st.state.transform ∧
    (Store.removeLink st id).1.cache.handlerPos = st.cache.handlerPos ∧
    (Store.removeLink st id).1.state.links =
      (if st.state.links.any (fun l => l.id = id) then removeFirstLink st.state.links id
       else st.state.links) := by
  by_cases h : st.state.links.any (fun l => l.id = id) = true
  · simp [Store.removeLink, h]
  · simp only [Bool.not_eq_true] at h
    simp [Store.removeLink, h]

theorem removeLink_foldl_fst (ys : List Connection) (st : Store) (evs : List Event) :
    (ys.foldl
      (fun acc l =>
        let r := Store.removeLink acc.1 l.id
        (r.1, acc.2 ++ r.2)) (st, evs)).1 =
      ys.foldl (fun s l => (Store.removeLink s l.id).1) st := by
  induction ys generalizing st evs with
  | nil => rfl
  | cons y ys ih => simpa using ih _ _

theorem removeLink_store_foldl (ys : List Connection) (st : Store) :
    (ys.foldl (fun s l => (Store.removeLink s l.id).1) st).state.nodes = st.state.nodes ∧
    (ys.foldl (fun s l => (Store.removeLink s l.id).1) st).cache.handlerPos =
      st.cache.handlerPos ∧
    (ys.foldl (fun s l => (Store.removeLink s l.id).1) st).state.links =
      ys.foldl stripStep st.state.links := by
  induction ys generalizing st with
  | nil => exact ⟨rfl, rfl, rfl⟩
  | cons y ys ih =>
      obtain ⟨h1, _, _, h4, h5⟩ := removeLink_components st y.id
      obtain ⟨ih1, ih2, ih3⟩ := ih (Store.removeLink st y.id).1
      refine ⟨?_, ?_, ?_⟩
      · rw [List.foldl_cons, ih1, h1]
      · rw [List.foldl_cons, ih2, h4]
      · rw [List.foldl_cons, ih3, h5, List.foldl_cons, stripStep]

theorem stripStep_cons (x : Connection) (ls : List Connection) (y : Connection)
    (h : y.id ≠ x.id) : stripStep (x :: ls) y = x :: stripStep ls y := by
  have hx : (decide (x.id = y.id)) = false := by
    simp
    exact fun he => h he.symm
  cases hany : ls.any (fun l => l.id = y.id) with
  | true =>
      rw [stripStep, stripStep, if_pos (by simp [List.any_cons, hany]),
        if_pos (by simp [hany])]
      rw [removeFirstLink]
      simp [Ne.symm h]
  | false =>
      rw [stripStep, stripStep, if_neg (by simp [List.any_cons, hany]; exact fun he => h he.symm),
        if_neg (by simp [hany])]

theorem stripFold_cons (ys : List Connection) (x : Connection) (ls : List Connection)
    (h : ∀ y ∈ ys, y.id ≠ x.id) :
    ys.foldl stripStep (x :: ls) = x :: ys.foldl stripStep ls := by
  induction ys generalizing ls with
  | nil => rfl
  | cons y ys ih =>
      rw [List.foldl_cons, stripStep_cons x ls y (h y (by simp)), List.foldl_cons]
      exact ih (stripStep ls y) (fun y2 hy2 => h y2 (by simp [hy2]))

/-- Removing, one by one, the links satisfying `p` from a duplicate-free
link list leaves exactly the links violating `p`. -/
theorem stripFold_filter (xs : List Connection) (p : Connection → Bool)
    (hnd : (xs.map Connection.id).Nodup) :
    (xs.filter p).foldl stripStep xs = xs.filter (fun x => !(p x)) := by
  induction xs with
  | nil => rfl
  | cons x rest ih =>
      simp only [List.map_cons, List.nodup_cons] at hnd
      cases hp : p x with
      | true =>
          rw [List.filter_cons_of_pos (by simp [hp]), List.foldl_cons]
          have hstep : stripStep (x :: rest) x = rest := by
            rw [stripStep, if_pos (by simp [List.any_cons]), removeFirstLink, if_pos rfl]
          rw [hstep, ih hnd.2, List.filter_cons_of_neg (by simp [hp])]
      | false =>
          rw [List.filter_cons_of_neg (by simp [hp])]
          have hne : ∀ y ∈ rest.filter p, y.id ≠ x.id := by
            intro y hy he
            exact hnd.1 (he ▸ List.mem_map_of_mem Connection.id (List.mem_of_mem_filter hy))
          rw [stripFold_cons _ x rest hne, ih hnd.2,
            List.filter_cons_of_pos (by simp [hp])]

/-- The rebuilt cache has no bucket whose key is not a live node id. -/
theorem nodeToLinksStep_lookup_none (nodes : List Node) (k : String)
    (hk : k ∉ nodes.map Node.id) (m : RecMap (List Connection)) (l : Connection)
    (hm : recLookup m k = none) :
    recLookup (nodeToLinksStep nodes m l) k = none := by
  have key : ∀ (m1 : RecMap (List Connection)) (a : Node) (v : List Connection),
      a ∈ nodes → recLookup m1 k = none → recLookup (recSet m1 a.id v) k = none := by
    intro m1 a v ha hm1
    have hka : k ≠ a.id := fun he => hk (he ▸ List.mem_map_of_mem Node.id ha)
    rw [recLookup_recSet_ne _ _ _ _ hka]
    exact hm1
  rw [nodeToLinksStep]
  cases hsrc : findNodeByHandlerId nodes l.sourceHandlerId with
  | none =>
      cases htgt : findNodeByHandlerId nodes l.targetHandlerId with
      | none => exact hm
      | some b =>
          have hb : b ∈ nodes := List.mem_of_find?_eq_some htgt
          simp only [Option.map_none]
          rw [if_pos (by simp)]
          exact key m b _ hb hm
  | some a =>
      have ha : a ∈ nodes := List.mem_of_find?_eq_some hsrc
      cases htgt : findNodeByHandlerId nodes l.targetHandlerId with
      | none => exact key m a _ ha hm
      | some b =>
          have hb : b ∈ nodes := List.mem_of_find?_eq_some htgt
          by_cases hab : a.id = b.id
          · simp only [Option.map_some]
            rw [if_neg (by simp [hab])]
            exact key m a _ ha hm
          · simp only [Option.map_some]
            rw [if_pos (by simp; exact hab)]
            exact key _ b _ hb (key m a _ ha hm)

theorem rebuildNodeToLinksCache_lookup_none (s : GraphState) (k : String)
    (hk : k ∉ s.nodes.map Node.id) :
    recLookup (rebuildNodeToLinksCache s) k = none := by
  have main : ∀ (ls : List Connection) (m : RecMap (List Connection)),
      recLookup m k = none →
        recLookup (ls.foldl (nodeToLinksStep s.nodes) m) k = none := by
    intro ls
    induction ls with
    | nil => intro m hm; exact hm
    | cons l rest ih =>
        intro m hm
        rw [List.foldl_cons]
        exact ih _ (nodeToLinksStep_lookup_none s.nodes k hk m l hm)
  exact main s.links [] rfl

theorem removeFirstNode_id_not_mem (nodes : List Node) (id : String)
    (hnd : (nodes.map Node.id).Nodup) :
    id ∉ (removeFirstNode nodes id).map Node.id := by
  induction nodes with
  | nil => simp [removeFirstNode]
  | cons a t ih =>
      simp only [List.map_cons, List.nodup_cons] at hnd
      by_cases h : a.id = id
      · rw [removeFirstNode, if_pos h]
        rw [h] at hnd
        exact hnd.1
      · rw [removeFirstNode, if_neg h]
        simp only [List.map_cons, List.mem_cons]
        rintro (he | he)
        · exact h he.symm
        · exact ih hnd.2 he

/-- C3: `removeNode(id)` removes exactly the connections incident to the
node's handlers (the surviving links are the original list filtered to the
non-incident ones, unchanged and in order), `getLinksForNode(id)` is empty
afterwards, and the node itself is spliced out. -/
theorem C3_removeNode_cascade (st : Store) (id : String) (n : Node)
    (hfind : st.state.nodes.find? (fun nd => nd.id = id) = some n)
    (hdisj : nodesHandlersDisjoint st.state.nodes)
    (hnids : (st.state.nodes.map Node.id).Nodup)
    (hlids : (st.state.links.map Connection.id).Nodup)
    (hcache : st.cache.nodeToLinks = rebuildNodeToLinksCache st.state) :
    (Store.removeNode st id).1.state.links =
      st.state.links.filter (fun l => !(incident n l)) ∧
    Store.getLinksForNode (Store.removeNode st id).1 id = [] ∧
    (Store.removeNode st id).1.state.nodes = removeFirstNode st.state.nodes id := by
  have hnmem : n ∈ st.state.nodes := List.mem_of_find?_eq_some hfind
  have hnid : n.id = id := by
    have := List.find?_some hfind
    simpa using this
  have hlinked : Store.getLinksForNode st id = st.state.links.filter (incident n) := by
    rw [Store.getLinksForNode, hcache, ← hnid,
      rebuildNodeToLinksCache_lookup st.state n hdisj hnids hnmem]
  obtain ⟨hf1, hf2, hf3⟩ := removeLink_store_foldl (Store.getLinksForNode st id) st
  have hstripped : (Store.getLinksForNode st id).foldl stripStep st.state.links =
      st.state.links.filter (fun l => !(incident n l)) := by
    rw [hlinked]
    exact stripFold_filter st.state.links (incident n) hlids
  simp only [Store.removeNode, hfind, removeLink_foldl_fst]
  refine ⟨by rw [hf3, hstripped], ?_, by rw [hf1]⟩
  rw [Store.getLinksForNode]
  have hknot : id ∉ (removeFirstNode
      ((Store.getLinksForNode st id).foldl
        (fun s l => (Store.removeLink s l.id).1) st).state.nodes id).map Node.id := by
    rw [hf1]
    exact removeFirstNode_id_not_mem st.state.nodes id hnids
  rw [rebuildNodeToLinksCache_lookup_none _ id hknot]
  rfl

/-- C3 witness: removing the example node deletes its one incident
connection and empties its cached bucket. -/
theorem C3_witness :
    exStore.state.nodes.find? (fun nd => nd.id = "n1") = some exNode ∧
    ((Store.removeNode exStore "n1").1.state.links =
        exStore.state.links.filter (fun l => !(incident exNode l)) ∧
      Store.getLinksForNode (Store.removeNode exStore "n1").1 "n1" = [] ∧
      (Store.removeNode exStore "n1").1.state.nodes =
        removeFirstNode exStore.state.nodes "n1") :=
  ⟨by decide,
    C3_removeNode_cascade exStore "n1" exNode (by decide) (by decide) (by decide)
      (by decide) (by decide)⟩

/-! ### Round trip

A node is definition-consistent when it looks exactly as the Node
constructor builds it from its registered plugin definition, up to handler
ids and labels: its role and the construction defaults for width/height,
and handlers realizing the definition's handler list in order.  The store
only ever holds such nodes (they are all created through the constructor),
but a GraphState value in general need not be one. -/

def handlersMatchB : List Handler → List HandlerSpec → Bool
  | [], [] => true
  | h :: hs, s :: ss =>
      decide (h.type = s.type) && decide (h.flow = s.flow) &&
        decide (h.role = s.role) && decide (h.offset = s.offset) &&
        decide (h.direction = s.direction) && decide (h.dims = s.dims) &&
        handlersMatchB hs ss
  | _, _ => false

def nodeConsistentB (reg : Registry) (n : Node) : Bool :=
  match reg.getNodeDefinition n.type with
  | none => false
  | some d =>
      decide (n.role = d.role) && decide (n.width = 200) && decide (n.height = 100) &&
        handlersMatchB n.handlers d.handlerSpecs

/-- Values of a record built by keyed insertion over fresh, duplicate-free
keys: the images in order. -/
theorem recValues_foldl_recSet {β α : Type} (key : β → String) (f : β → α)
    (l : List β) (r : RecMap α)
    (hfresh : ∀ x ∈ l, key x ∉ recKeys r) (hnd : (l.map key).Nodup) :
    recValues (l.foldl (fun r x => recSet r (key x) (f x)) r) =
      recValues r ++ l.map f := by
  induction l generalizing r with
  | nil => simp
  | cons x tl ih =>
      simp only [List.map_cons, List.nodup_cons] at hnd
      have hx : key x ∉ recKeys r := hfresh x (by simp)
      rw [List.foldl_cons, recSet_of_not_mem r (key x) (f x) hx]
      have hfresh' : ∀ y ∈ tl, key y ∉ recKeys (r ++ [(key x, f x)]) := by
        intro y hy
        have h1 : key y ∉ recKeys r := hfresh y (by simp [hy])
        have h2 : key y ≠ key x := by
          intro he
          exact hnd.1 (he ▸ List.mem_map_of_mem key hy)
        simp [recKeys, List.map_append] at h1 ⊢
        exact ⟨h1, h2⟩
      rw [ih _ hfresh']
      · simp [recValues]
      · exact hnd.2

theorem recValues_serializeHandlers (hs : List Handler)
    (hnd : (hs.map Handler.id).Nodup) :
    recValues (serializeHandlers hs) = hs.map serializeHandler := by
  have := recValues_foldl_recSet Handler.id serializeHandler hs []
    (by intro x _; simp [recKeys]) hnd
  simpa [serializeHandlers, recValues] using this

theorem recValues_serializeNodes (ns : List Node)
    (hnd : (ns.map Node.id).Nodup) :
    recValues (serializeNodes ns) = ns.map serializeNode := by
  have := recValues_foldl_recSet Node.id serializeNode ns []
    (by intro x _; simp [recKeys]) hnd
  simpa [serializeNodes, recValues] using this

theorem recValues_serializeConnections (cs : List Connection)
    (hnd : (cs.map Connection.id).Nodup) :
    recValues (serializeConnections cs) = cs.map serializeConnection := by
  have := recValues_foldl_recSet Connection.id serializeConnection cs []
    (by intro x _; simp [recKeys]) hnd
  simpa [serializeConnections, recValues] using this

theorem recValues_serializeNotes (ns : List Note)
    (hnd : (ns.map Note.id).Nodup) :
    recValues (serializeNotes ns) = ns.map serializeNote := by
  have := recValues_foldl_recSet Note.id serializeNote ns []
    (by intro x _; simp [recKeys]) hnd
  simpa [serializeNotes, recValues] using this

/-- The crux of handler-ID restoration: when the freshly constructed
handlers realize the same type sequence as the saved ones, the per-type
index walk matches them up pointwise in order. -/
theorem restoreHandlerIds_zip (saved : List SHandler) :
    ∀ (fresh : List Handler) (done rest : List SHandler) (idx : RecMap Nat),
      saved = done ++ rest →
      fresh.map Handler.type = rest.map SHandler.type →
      (∀ t, (recLookup idx t).getD 0 = done.countP (fun sh => decide (sh.type = t))) →
      restoreHandlerIds saved fresh idx = List.zipWith restoreOne fresh rest := by
  intro fresh
  induction fresh with
  | nil => intro done rest idx _ _ _; rfl
  | cons h fresh' ih =>
      intro done rest idx hsaved hty hidx
      cases rest with
      | nil => cases hty
      | cons sh rest' =>
          simp only [List.map_cons, List.cons.injEq] at hty
          obtain ⟨htysh, hty'⟩ := hty
          have hj : (recLookup idx h.type).getD 0 =
              done.countP (fun x => decide (x.type = h.type)) := hidx h.type
          have hget : (savedOfType saved h.type).get? ((recLookup idx h.type).getD 0) =
              some sh := by
            rw [savedOfType, hsaved, List.filter_append, hj]
            have hlen : (done.filter (fun x => decide (x.type = h.type))).length =
                done.countP (fun x => decide (x.type = h.type)) := by
              rw [List.countP_eq_length_filter]
            have hsplit : List.filter (fun x => decide (x.type = h.type)) (sh :: rest') =
                sh :: List.filter (fun x => decide (x.type = h.type)) rest' := by
              simp [List.filter_cons, htysh]
            rw [hsplit, List.get?_eq_getElem?,
              List.getElem?_append_right (le_of_eq hlen)]
            simp [hlen]
          rw [restoreHandlerIds, hget]
          simp only [List.zipWith_cons_cons]
          congr 1
          apply ih (done ++ [sh]) rest' _ (by rw [hsaved]; simp) hty'
          intro t
          by_cases ht : t = h.type
          · subst ht
            rw [recLookup_recSet_self]
            have hc1 : List.countP (fun x => decide (x.type = h.type)) (done ++ [sh]) =
                List.countP (fun x => decide (x.type = h.type)) done + 1 := by
              rw [List.countP_append]
              simp [List.countP_cons, htysh]
            rw [hc1, ← hj]
            rfl
          · rw [recLookup_recSet_ne _ _ _ _ ht, hidx t, List.countP_append]
            have hc0 : List.countP (fun x => decide (x.type = t)) [sh] = 0 := by
              simp [List.countP_cons]
              intro he
              exact ht (htysh.trans he).symm
            rw [hc0]
            simp

theorem handlersMatchB_types (hs : List Handler) :
    ∀ specs : List HandlerSpec, handlersMatchB hs specs = true →
      hs.map Handler.type = specs.map HandlerSpec.type := by
  induction hs with
  | nil =>
      intro specs h
      cases specs with
      | nil => rfl
      | cons s ss => cases h
  | cons h hs ih =>
      intro specs hm
      cases specs with
      | nil => cases hm
      | cons s ss =>
          simp only [handlersMatchB, Bool.and_eq_true, decide_eq_true_eq] at hm
          obtain ⟨⟨⟨⟨⟨⟨ht, _⟩, _⟩, _⟩, _⟩, _⟩, hrest⟩ := hm
          simp [ht, ih ss hrest]

theorem freshHandlers_types (nid : String) (specs : List HandlerSpec) :
    (freshHandlers nid specs).map Handler.type = specs.map HandlerSpec.type := by
  unfold freshHandlers
  rw [List.map_map]
  have h1 : (Handler.type ∘ fun p : Nat × HandlerSpec =>
      ({ id := mintHandlerId nid p.1, type := p.2.type, flow := p.2.flow,
         role := p.2.role, offset := p.2.offset, direction := p.2.direction,
         dims := p.2.dims, label := "" } : Handler)) = HandlerSpec.type ∘ Prod.snd := rfl
  rw [h1, ← List.map_map, List.enum_map_snd]

/-- Pointwise: restoring a matched saved handler onto the fresh handler
constructed from the matching definition entry reproduces the original. -/
theorem zipWith_restore_fresh (nid : String) (hs : List Handler) :
    ∀ (specs : List HandlerSpec) (k : Nat), handlersMatchB hs specs = true →
      List.zipWith restoreOne
        ((specs.enumFrom k).map (fun p =>
          ({ id := mintHandlerId nid p.1, type := p.2.type, flow := p.2.flow,
             role := p.2.role, offset := p.2.offset, direction := p.2.direction,
             dims := p.2.dims, label := "" } : Handler)))
        (hs.map serializeHandler) = hs := by
  induction hs with
  | nil => intro specs k _; cases specs <;> rfl
  | cons h hs ih =>
      intro specs k hm
      cases specs with
      | nil => cases hm
      | cons s ss =>
          simp only [handlersMatchB, Bool.and_eq_true, decide_eq_true_eq] at hm
          obtain ⟨⟨⟨⟨⟨⟨ht, hf⟩, hr⟩, ho⟩, hd⟩, hdm⟩, hrest⟩ := hm
          simp only [List.enumFrom, List.map_cons, List.zipWith_cons_cons]
          refine congrArg₂ List.cons ?_ (ih ss (k + 1) hrest)
          cases h with
          | mk hid htype hflow hrole hoffset hdirection hdims hlabel =>
              simp only at ht hf hr ho hd hdm
              by_cases hl : hlabel = ""
              · simp [restoreOne, serializeHandler, ht, hf, hr, ho, hd, hdm, hl]
              · simp [restoreOne, serializeHandler, ht, hf, hr, ho, hd, hdm, hl]

/-- Deserializing a serialized definition-consistent node reproduces it,
handler ids included. -/
theorem deserializeNode_serializeNode (reg : Registry) (n : Node)
    (hcons : nodeConsistentB reg n = true)
    (hnd : (n.handlers.map Handler.id).Nodup) :
    deserializeNode reg (serializeNode n) = some n := by
  cases hdd : reg.getNodeDefinition n.type with
  | none => rw [nodeConsistentB, hdd] at hcons; cases hcons
  | some d =>
      rw [nodeConsistentB, hdd] at hcons
      simp only [Bool.and_eq_true, decide_eq_true_eq] at hcons
      obtain ⟨⟨⟨hrole, hw⟩, hh⟩, hmatch⟩ := hcons
      have hvals : recValues (serializeNode n).handles =
          n.handlers.map serializeHandler := by
        show recValues (serializeHandlers n.handlers) = _
        exact recValues_serializeHandlers n.handlers hnd
      have hty : (freshHandlers n.id d.handlerSpecs).map Handler.type =
          (n.handlers.map serializeHandler).map SHandler.type := by
        rw [freshHandlers_types, List.map_map]
        have h1 : (SHandler.type ∘ serializeHandler) = Handler.type := rfl
        rw [h1, handlersMatchB_types n.handlers d.handlerSpecs hmatch]
      have hrestore : restoreHandlerIds (recValues (serializeNode n).handles)
          (freshHandlers (serializeNode n).id d.handlerSpecs) [] = n.handlers := by
        rw [hvals]
        have hzip := restoreHandlerIds_zip (n.handlers.map serializeHandler)
          (freshHandlers n.id d.handlerSpecs) [] (n.handlers.map serializeHandler) []
          rfl hty (by intro t; simp)
        have hfresh := zipWith_restore_fresh n.id n.handlers d.handlerSpecs 0 hmatch
        exact hzip.trans hfresh
      have hd' : reg.getNodeDefinition (serializeNode n).type = some d := hdd
      simp only [deserializeNode, hd']
      rw [hrestore]
      cases n with
      | mk nid ntype nrole nlabel nnote npos nw nh nstyle ndata nhandlers =>
          simp only at hrole hw hh
          simp [serializeNode, hrole, hw, hh]

theorem deserializeConn_serializeConnection (reg : Registry) (nodes : List Node)
    (c : Connection) (htype : reg.hasConnectionType c.type = true)
    (hsrc : handlerExists c.sourceHandlerId nodes = true)
    (htgt : handlerExists c.targetHandlerId nodes = true) :
    deserializeConn reg nodes (serializeConnection c) = some c := by
  cases c with
  | mk cid ctype csrc ctgt cpath cstyle clabel cdata =>
      simp only [serializeConnection] at htype hsrc htgt ⊢
      simp [deserializeConn, htype, hsrc, htgt]

theorem deserializeNodesList_roundtrip (reg : Registry) (ns : List Node)
    (hcons : ∀ n ∈ ns, nodeConsistentB reg n = true ∧
      (n.handlers.map Handler.id).Nodup) :
    deserializeNodesList reg (ns.map serializeNode) = (ns, []) := by
  induction ns with
  | nil => rfl
  | cons n rest ih =>
      simp only [List.map_cons, deserializeNodesList]
      rw [ih (fun m hm => hcons m (by simp [hm])),
        deserializeNode_serializeNode reg n (hcons n (by simp)).1 (hcons n (by simp)).2]

theorem deserializeConnsList_roundtrip (reg : Registry) (nodes : List Node)
    (cs : List Connection)
    (h : ∀ c ∈ cs, reg.hasConnectionType c.type = true ∧
      handlerExists c.sourceHandlerId nodes = true ∧
      handlerExists c.targetHandlerId nodes = true) :
    deserializeConnsList reg nodes (cs.map serializeConnection) = (cs, []) := by
  induction cs with
  | nil => rfl
  | cons c rest ih =>
      simp only [List.map_cons, deserializeConnsList]
      rw [ih (fun c2 hc2 => h c2 (by simp [hc2])),
        deserializeConn_serializeConnection reg nodes c (h c (by simp)).1
          (h c (by simp)).2.1 (h c (by simp)).2.2]

/-- C1, counterexample to the claim as stated: a GraphState whose only node
has a registered type and no connections at all, but a width (300) other
than the construction default, does not survive the round trip even up to
ordering — node width/height are never serialized and deserialization
rebuilds them from the constructor defaults. -/
theorem C1_counterexample_roundtrip_needs_consistency :
    ¬ ((deserialize exRegistry (serialize "now"
        { nodes := [{ exNode with width := 300 }], links := [], notes := [],
          transform := ⟨1, 0, 0⟩ })).nodes.Perm
      [{ exNode with width := 300 }]) := by decide

/-- C1 (amended): for any GraphState whose entity ids are duplicate-free,
whose nodes are definition-consistent for their registered plugin types
(they look as the Node constructor builds them: default width/height,
role and handlers realized from the definition, up to handler ids and
labels), and whose connections have registered types and endpoint handler
ids resolving to handlers of nodes in the state,
`deserialize(serialize(S))` is exactly `S` — in particular equal up to
ordering, with every handler keeping its original id. -/
theorem C1_serialize_deserialize_roundtrip (reg : Registry) (S : GraphState)
    (now : String)
    (hnodes : ∀ n ∈ S.nodes, nodeConsistentB reg n = true ∧
      (n.handlers.map Handler.id).Nodup)
    (hnids : (S.nodes.map Node.id).Nodup)
    (hcids : (S.links.map Connection.id).Nodup)
    (hnoteids : (S.notes.map Note.id).Nodup)
    (hconns : ∀ c ∈ S.links, reg.hasConnectionType c.type = true ∧
      handlerExists c.sourceHandlerId S.nodes = true ∧
      handlerExists c.targetHandlerId S.nodes = true) :
    deserialize reg (serialize now S) = S := by
  have h1 : deserializeNodesList reg (recValues (serialize now S).nodes) =
      (S.nodes, []) := by
    show deserializeNodesList reg (recValues (serializeNodes S.nodes)) = _
    rw [recValues_serializeNodes S.nodes hnids]
    exact deserializeNodesList_roundtrip reg S.nodes hnodes
  have h2 : deserializeConnsList reg S.nodes
      (recValues (serialize now S).connections) = (S.links, []) := by
    show deserializeConnsList reg S.nodes (recValues (serializeConnections S.links)) = _
    rw [recValues_serializeConnections S.links hcids]
    exact deserializeConnsList_roundtrip reg S.nodes S.links hconns
  have h3 : (recValues (serialize now S).notes).map deserializeNote = S.notes := by
    show (recValues (serializeNotes S.notes)).map deserializeNote = _
    rw [recValues_serializeNotes S.notes hnoteids, List.map_map]
    have hid : (deserializeNote ∘ serializeNote) = id :=
      funext fun n => by cases n; rfl
    rw [hid, List.map_id]
  rw [deserialize, h1]
  simp only
  rw [h2]
  simp only
  rw [h3]
  cases S
  rfl

/-- C1 witness: the example state (one task node with two handlers, one
connection between them, one note) round-trips exactly. -/
theorem C1_witness :
    (∀ n ∈ exState.nodes, nodeConsistentB exRegistry n = true ∧
      (n.handlers.map Handler.id).Nodup) ∧
    deserialize exRegistry (serialize "now" exState) = exState :=
  ⟨by decide,
    C1_serialize_deserialize_roundtrip exRegistry exState "now" (by decide)
      (by decide) (by decide) (by decide) (by decide)⟩

end Rulable
